import Mathlib

/-!
# The request / download bridge of `P3DInstance`

A shallow embedding of `direct/src/plugin/p3dInstance.cxx`: the pending-request
queue, the download registry, the shared id counter and the token list of a
plugin instance, followed by theorems about them.

Conventions of the embedding.

* C++ `int` ids are `Int`, read as unbounded integers (signed overflow of the
  counter is undefined behaviour in the source and is outside the model).
* A pointer to an instance is the position of the instance in the process
  heap; a `P3D_request *` is modelled by the request value, `NULL` by `none`.
* A `P3DDownload *` stored in the registry is modelled by the download value;
  a mutation made through the pointer is written back under the same key.
* `assert(e)` that fails stops the call: the call yields
  `Outcome.assert_failed` together with the state at that point.
* The calls run one after the other: `ACQUIRE_LOCK` / `RELEASE_LOCK`, the
  `cerr` log lines and `signal_request_ready` have no effect on the modelled
  state. Only the section on two threads inside `start_download` lets calls
  overlap: there the method is split into its statements, and a schedule
  chooses which thread runs its next statement.
-/

namespace P3D

/-! ## Data model -/

/-- Modelled from the spec: the enum `P3D_request_type` is declared in
`p3d_plugin.h`, which is not among the sources; the source names
`P3D_RT_get_url` and its comments `post_url`, the spec "FetchURL, Notify,
Exit". -/
inductive P3D_request_type where
  | P3D_RT_stop
  | P3D_RT_get_url
  | P3D_RT_post_url
  | P3D_RT_notify
  deriving DecidableEq, Repr

/-- Modelled from the spec: the enum `P3D_result_code` is declared in
`p3d_plugin.h`, which is not among the sources; a result code is taken as its
numeric value. -/
abbrev P3D_result_code := Nat

/-- The struct `P3D_request` as `start_download` fills it: the back-reference
`_instance`, the tag `_request_type` and the `_get_url` payload
(`_request._get_url._url`, `_request._get_url._unique_id`). -/
structure P3D_request where
  _instance : Nat
  _request_type : P3D_request_type
  _url : String
  _unique_id : Int
  deriving DecidableEq, Repr

/-- Modelled from the spec: the class `P3DDownload` is declared in
`p3dDownload.h`, which is not among the sources. It carries a correlation id
(zero means unregistered), a target url and the stream state `S` of its own
ingestion logic. -/
structure P3DDownload (S : Type) where
  _download_id : Int
  _url : String
  _state : S
  deriving DecidableEq, Repr

/-- Modelled from the spec: the accessor `P3DDownload::get_download_id`. -/
def P3DDownload.get_download_id {S : Type} (d : P3DDownload S) : Int :=
  d._download_id

/-- Modelled from the spec: the mutator `P3DDownload::set_download_id`. -/
def P3DDownload.set_download_id {S : Type} (d : P3DDownload S) (download_id : Int) :
    P3DDownload S :=
  { d with _download_id := download_id }

/-- Modelled from the spec: the accessor `P3DDownload::get_url`. -/
def P3DDownload.get_url {S : Type} (d : P3DDownload S) : String :=
  d._url

/-- Modelled from the spec: the ingestion interface of `P3DDownload`, taken as
a parameter. `feed_url_stream` consumes one chunk (result code, http status,
total expected size, the bytes) and returns whether the stream is still
healthy together with the new stream state; `get_download_finished` reports
completion. -/
structure DownloadOps (S : Type) where
  feed_url_stream : S → P3D_result_code → Int → Nat → List Nat → Bool × S
  get_download_finished : S → Bool

/-- The C struct `P3D_token`: two `const char *`, either of which may be
`NULL`. -/
structure P3D_token where
  _keyword : Option String
  _value : Option String
  deriving DecidableEq, Repr

/-- The class `P3DInstance::Token`: two `std::string`, default-constructed
empty. -/
structure Token where
  _keyword : String
  _value : String
  deriving DecidableEq, Repr

/-- The map `Downloads` (`_downloads`): correlation id to download, kept in key
order. -/
abbrev Downloads (S : Type) := List (Int × P3DDownload S)

/-- The members of `P3DInstance` that the request / download bridge reads or
writes: `_instance_id`, `_tokens`, `_pending_requests`, `_downloads`. The
window parameters, the session key and the session pointer are not part of the
bridge. -/
structure P3DInstance (S : Type) where
  _instance_id : Int
  _tokens : List Token
  _pending_requests : List P3D_request
  _downloads : Downloads S
  deriving DecidableEq, Repr

/-- The process: the static `P3DInstance::_next_instance_id` and the instances
constructed so far; the pointer to an instance is its position in `heap`. -/
structure Process (S : Type) where
  _next_instance_id : Int
  heap : List (P3DInstance S)
  deriving DecidableEq, Repr

/-- How a call that contains `assert` ends: it returns, or an assertion (named
by its expression) fails. -/
inductive Outcome where
  | returned
  | assert_failed (expr : String)
  deriving DecidableEq, Repr

/-! ## The registry operations (`std::map`) -/

/-- The lookup `_downloads.find(unique_id)`: the entry under the key, or `none`
for `end()`. -/
def Downloads.find {S : Type} (unique_id : Int) : Downloads S → Option (P3DDownload S)
  | [] => none
  | (k, d) :: rest => if k = unique_id then some d else Downloads.find unique_id rest

/-- The place of a new key in key order. -/
def Downloads.orderedInsert {S : Type} (k : Int) (d : P3DDownload S) : Downloads S → Downloads S
  | [] => [(k, d)]
  | (k', d') :: rest =>
    if k < k' then (k, d) :: (k', d') :: rest
    else (k', d') :: Downloads.orderedInsert k d rest

/-- The call `_downloads.insert(value_type(k, d))`: when the key is present the
map is left as it is and `.second` is false; otherwise the entry is added and
`.second` is true. -/
def Downloads.insert {S : Type} (k : Int) (d : P3DDownload S) (m : Downloads S) :
    Downloads S × Bool :=
  match Downloads.find k m with
  | some _ => (m, false)
  | none => (Downloads.orderedInsert k d m, true)

/-- The call `_downloads.erase(di)` for the iterator found under `unique_id`:
the entry under that key is removed. -/
def Downloads.erase {S : Type} (unique_id : Int) (m : Downloads S) : Downloads S :=
  m.filter (fun e => decide (e.1 ≠ unique_id))

/-- The effect on the map of mutating, through its pointer, the download
stored under `unique_id`. -/
def Downloads.writeBack {S : Type} (unique_id : Int) (d : P3DDownload S) (m : Downloads S) :
    Downloads S :=
  m.map (fun e => if e.1 = unique_id then (e.1, d) else e)

/-- The keys of the registry. -/
def Downloads.keys {S : Type} (m : Downloads S) : List Int :=
  m.map Prod.fst

/-! ## C strings -/

/-- The copy `strdup(s.c_str())` of a `std::string`: the characters before the
first NUL. -/
def c_str (s : String) : String :=
  String.mk (s.data.takeWhile (fun c => decide (c ≠ Char.ofNat 0)))

/-! ## The methods of `P3DInstance` -/

/-- The expression of the assertion in `add_request`. -/
def add_request_assertion : String := "request->_instance == this"

/-- The expression of the first assertion in `start_download`. -/
def download_id_assertion : String := "download->get_download_id() == 0"

/-- The expression of the second assertion in `start_download`. -/
def inserted_assertion : String := "inserted"

/-- The expression of the assertion in `finish_request`. -/
def finish_request_assertion : String := "request != NULL"

/-- The method `P3DInstance::fill_tokens`: each C token is copied in order; a
`NULL` keyword or value leaves the default-constructed empty string. -/
def fill_tokens (tokens : List P3D_token) (_tokens : List Token) : List Token :=
  match tokens with
  | [] => _tokens
  | t :: rest =>
    let token : Token := { _keyword := "", _value := "" }
    let token := match t._keyword with
      | some k => { token with _keyword := k }
      | none => token
    let token := match t._value with
      | some v => { token with _value := v }
      | none => token
    fill_tokens rest (_tokens ++ [token])

/-- The method `P3DInstance::lookup_token`. -/
def lookup_token (_tokens : List Token) (keyword : String) : String :=
  match _tokens with
  | [] => ""
  | ti :: rest => if ti._keyword = keyword then ti._value else lookup_token rest keyword

/-- The method `P3DInstance::has_request`. -/
def has_request {S : Type} (inst : P3DInstance S) : Bool × P3DInstance S :=
  let any_requests := !inst._pending_requests.isEmpty
  (any_requests, inst)

/-- The method `P3DInstance::get_request`: `front()` then `pop_front()` when the
queue is not empty. -/
def get_request {S : Type} (inst : P3DInstance S) : Option P3D_request × P3DInstance S :=
  if !inst._pending_requests.isEmpty then
    (inst._pending_requests.head?,
      { inst with _pending_requests := inst._pending_requests.tail })
  else
    (none, inst)

/-- The method `P3DInstance::add_request`, called on the instance at address
`this`. -/
def add_request {S : Type} (this : Nat) (inst : P3DInstance S) (request : P3D_request) :
    Outcome × P3DInstance S :=
  if request._instance = this then
    (Outcome.returned,
      { inst with _pending_requests := inst._pending_requests ++ [request] })
  else
    (Outcome.assert_failed add_request_assertion, inst)

/-- The method `P3DInstance::finish_request`: the request is deleted; the
instance is not touched. -/
def finish_request {S : Type} (inst : P3DInstance S) (request : Option P3D_request)
    (_handled : Bool) : Outcome × P3DInstance S :=
  match request with
  | none => (Outcome.assert_failed finish_request_assertion, inst)
  | some _ => (Outcome.returned, inst)

/-- The method `P3DInstance::feed_url_stream`. The chunk `this_data` stands for
the pair `this_data`, `this_data_size`. -/
def feed_url_stream {S : Type} (ops : DownloadOps S) (inst : P3DInstance S)
    (unique_id : Int) (result_code : P3D_result_code) (http_status_code : Int)
    (total_expected_data : Nat) (this_data : List Nat) : Bool × P3DInstance S :=
  match Downloads.find unique_id inst._downloads with
  | none => (false, inst)
  | some download =>
    let fed := ops.feed_url_stream download._state result_code http_status_code
      total_expected_data this_data
    let download_ok := fed.1
    let download := { download with _state := fed.2 }
    if !download_ok || ops.get_download_finished download._state then
      (download_ok, { inst with _downloads := Downloads.erase unique_id inst._downloads })
    else
      (download_ok,
        { inst with _downloads := Downloads.writeBack unique_id download inst._downloads })

/-- The method `P3DInstance::start_download`, called on the instance at address
`this` with the static counter at `next`. It yields the outcome, the counter,
the instance and the download object as the caller sees it afterwards. -/
def start_download {S : Type} (this : Nat) (next : Int) (inst : P3DInstance S)
    (download : P3DDownload S) : Outcome × Int × P3DInstance S × P3DDownload S :=
  if download.get_download_id ≠ 0 then
    (Outcome.assert_failed download_id_assertion, next, inst, download)
  else
    let download_id := next
    let next := next + 1
    let download := download.set_download_id download_id
    let ins := Downloads.insert download_id download inst._downloads
    let inst := { inst with _downloads := ins.1 }
    if !ins.2 then
      (Outcome.assert_failed inserted_assertion, next, inst, download)
    else
      let request : P3D_request :=
        { _instance := this
          _request_type := P3D_request_type.P3D_RT_get_url
          _url := c_str download.get_url
          _unique_id := download_id }
      let added := add_request this inst request
      (added.1, next, added.2, download)

/-- The constructor `P3DInstance::P3DInstance`: the tokens are filled, the
instance takes the counter value as its id and the counter advances; the queue
and the registry start empty. It yields the address of the new instance. -/
def construct {S : Type} (p : Process S) (tokens : List P3D_token) : Nat × Process S :=
  let inst : P3DInstance S :=
    { _instance_id := p._next_instance_id
      _tokens := fill_tokens tokens []
      _pending_requests := []
      _downloads := [] }
  (p.heap.length, { _next_instance_id := p._next_instance_id + 1, heap := p.heap ++ [inst] })

/-! ## The process: calls and runs -/

/-- A call of the host or of a producer into the plugin. -/
inductive Call (S : Type) where
  | construct (tokens : List P3D_token)
  | has_request (this : Nat)
  | get_request (this : Nat)
  | add_request (this : Nat) (request : P3D_request)
  | finish_request (this : Nat) (request : Option P3D_request) (handled : Bool)
  | feed_url_stream (this : Nat) (unique_id : Int) (result_code : P3D_result_code)
      (http_status_code : Int) (total_expected_data : Nat) (this_data : List Nat)
  | start_download (this : Nat) (download : P3DDownload S)
  deriving DecidableEq, Repr

/-- What a call gives back to its caller. -/
inductive Ret (S : Type) where
  | pointer (this : Nat)
  | bool (b : Bool)
  | request (r : Option P3D_request)
  | void (o : Outcome)
  | download (o : Outcome) (d : P3DDownload S)
  deriving DecidableEq, Repr

/-- Whether the call ended in a failed assertion. -/
def Ret.aborted {S : Type} : Ret S → Bool
  | Ret.void (Outcome.assert_failed _) => true
  | Ret.download (Outcome.assert_failed _) _ => true
  | _ => false

/-- One call on the process. A method call on an address that holds no
instance is not a call the program can make: `none`. -/
def Process.call {S : Type} (ops : DownloadOps S) (p : Process S) :
    Call S → Option (Ret S × Process S)
  | Call.construct tokens =>
    let r := construct p tokens
    some (Ret.pointer r.1, r.2)
  | Call.has_request this =>
    match p.heap[this]? with
    | none => none
    | some inst =>
      let r := has_request inst
      some (Ret.bool r.1, { p with heap := p.heap.set this r.2 })
  | Call.get_request this =>
    match p.heap[this]? with
    | none => none
    | some inst =>
      let r := get_request inst
      some (Ret.request r.1, { p with heap := p.heap.set this r.2 })
  | Call.add_request this request =>
    match p.heap[this]? with
    | none => none
    | some inst =>
      let r := add_request this inst request
      some (Ret.void r.1, { p with heap := p.heap.set this r.2 })
  | Call.finish_request this request handled =>
    match p.heap[this]? with
    | none => none
    | some inst =>
      let r := finish_request inst request handled
      some (Ret.void r.1, { p with heap := p.heap.set this r.2 })
  | Call.feed_url_stream this unique_id result_code http_status_code total_expected_data
      this_data =>
    match p.heap[this]? with
    | none => none
    | some inst =>
      let r := feed_url_stream ops inst unique_id result_code http_status_code
        total_expected_data this_data
      some (Ret.bool r.1, { p with heap := p.heap.set this r.2 })
  | Call.start_download this download =>
    match p.heap[this]? with
    | none => none
    | some inst =>
      let r := start_download this p._next_instance_id inst download
      some (Ret.download r.1 r.2.2.2,
        { _next_instance_id := r.2.1, heap := p.heap.set this r.2.2.1 })

/-- The process before any instance is constructed: the counter is at its
initial value 0. -/
def Process.fresh {S : Type} : Process S :=
  { _next_instance_id := 0, heap := [] }

/-- A run: the calls are made one after the other and their results collected.
The run exists only while every call is made on an instance and no assertion
fails (a failed assertion ends the process). -/
def Process.run {S : Type} (ops : DownloadOps S) (p : Process S) :
    List (Call S) → Option (List (Ret S) × Process S)
  | [] => some ([], p)
  | c :: cs =>
    match Process.call ops p c with
    | none => none
    | some (r, p') =>
      if r.aborted then none
      else
        match Process.run ops p' cs with
        | none => none
        | some (rs, p'') => some (r :: rs, p'')

/-- A state the program can be in: the end of a run from the fresh process. -/
def Process.Reachable {S : Type} (ops : DownloadOps S) (p : Process S) : Prop :=
  ∃ cs rs, Process.run ops Process.fresh cs = some (rs, p)

/-- The ids that the `start_download` calls of a run assigned, oldest first. -/
def assigned_ids {S : Type} : List (Ret S) → List Int
  | [] => []
  | Ret.download Outcome.returned d :: rs => d._download_id :: assigned_ids rs
  | _ :: rs => assigned_ids rs

/-! ## A sample download collaborator -/

/-- A sample ingestion used to evaluate the methods on concrete inputs: the
stream state is the number of bytes received and the completion flag; a chunk
with a result code above 1 is rejected, any other chunk is counted, and the
download is finished once the expected total has arrived. -/
def countingOps : DownloadOps (Nat × Bool) where
  feed_url_stream := fun s result_code _ total_expected_data this_data =>
    if result_code > 1 then (false, s)
    else (true, (s.1 + this_data.length, decide (total_expected_data ≤ s.1 + this_data.length)))
  get_download_finished := fun s => s.2

/-! ## Calls on the queue of one instance -/

/-- Whether the call is an `add_request` on the instance at `a` carrying a
request whose back-reference is that instance, or a `get_request` on it. -/
def Call.isQueueCallOn {S : Type} (a : Nat) : Call S → Bool
  | Call.add_request this request => decide (this = a) && decide (request._instance = a)
  | Call.get_request this => decide (this = a)
  | _ => false

/-- The requests passed to `add_request` by a list of calls, in call order. -/
def added_requests {S : Type} : List (Call S) → List P3D_request
  | [] => []
  | Call.add_request _ request :: cs => request :: added_requests cs
  | _ :: cs => added_requests cs

/-- The non-NULL results of the `get_request` calls of a run, in call order. -/
def delivered_requests {S : Type} : List (Ret S) → List P3D_request
  | [] => []
  | Ret.request (some r) :: rs => r :: delivered_requests rs
  | _ :: rs => delivered_requests rs

/-- The pending queue of the instance at `a` (empty when there is none). -/
def Process.queue {S : Type} (p : Process S) (a : Nat) : List P3D_request :=
  match p.heap[a]? with
  | some inst => inst._pending_requests
  | none => []

/-- The registry of the instance at `a` (empty when there is none). -/
def Process.registry {S : Type} (p : Process S) (a : Nat) : Downloads S :=
  match p.heap[a]? with
  | some inst => inst._downloads
  | none => []

/-! ## Auxiliary definitions for the statements -/

/-- The request that `start_download` builds for the download `d` once it has
the id `download_id`. -/
def get_url_request {S : Type} (this : Nat) (download_id : Int) (d : P3DDownload S) :
    P3D_request :=
  { _instance := this
    _request_type := P3D_request_type.P3D_RT_get_url
    _url := c_str d._url
    _unique_id := download_id }

/-- The invariant of the id counter: it is at least the number of instances
constructed, and every key of every registry is below it. -/
def Process.Inv {S : Type} (p : Process S) : Prop :=
  (p.heap.length : Int) ≤ p._next_instance_id ∧
  ∀ inst ∈ p.heap, ∀ k ∈ Downloads.keys inst._downloads, k < p._next_instance_id

/-- Whether the call is a `start_download` on the instance at `a`. -/
def Call.isStartDownloadOn {S : Type} (a : Nat) : Call S → Bool
  | Call.start_download this _ => decide (this = a)
  | _ => false

/-- The instance once the download under `unique_id` is erased. -/
def retire {S : Type} (unique_id : Int) (inst : P3DInstance S) : P3DInstance S :=
  { inst with _downloads := Downloads.erase unique_id inst._downloads }

/-- The instance once `start_download` has registered `d` under `next` and
queued its request. -/
def started {S : Type} (this : Nat) (next : Int) (inst : P3DInstance S) (d : P3DDownload S) :
    P3DInstance S :=
  { inst with
    _downloads := Downloads.orderedInsert next (d.set_download_id next) inst._downloads
    _pending_requests := inst._pending_requests ++ [get_url_request this next d] }

/-- A sample request of the instance at address 0. -/
def sampleRequest (unique_id : Int) : P3D_request :=
  { _instance := 0
    _request_type := P3D_request_type.P3D_RT_get_url
    _url := "http://x/a.bin"
    _unique_id := unique_id }

/-- A sample process: the fresh process after one instance is constructed
without tokens. -/
def sampleProcess : Process (Nat × Bool) :=
  (construct Process.fresh []).2

/-- A sample download: not yet registered, nothing received. -/
def sampleDownload : P3DDownload (Nat × Bool) :=
  { _download_id := 0, _url := "http://x/a.bin", _state := (0, false) }

/-- A sample instance at address 0 with one download registered under id 1 and
its request pending. -/
def sampleInstance1 : P3DInstance (Nat × Bool) :=
  { _instance_id := 0
    _tokens := []
    _pending_requests := [sampleRequest 1]
    _downloads := [(1, { _download_id := 1, _url := "http://x/a.bin", _state := (0, false) })] }

/-- A sample process: one instance, one download registered under id 1. -/
def sampleProcess1 : Process (Nat × Bool) :=
  { _next_instance_id := 2, heap := [sampleInstance1] }

/-- A sample download whose url holds a NUL character. -/
def nulDownload : P3DDownload (Nat × Bool) :=
  { _download_id := 0, _url := "a\x00b", _state := (0, false) }

/-- A sample instance whose registry already holds the key 1. -/
def collidingInstance : P3DInstance (Nat × Bool) :=
  { _instance_id := 0
    _tokens := []
    _pending_requests := []
    _downloads := [(1, { _download_id := 1, _url := "http://x/old.bin", _state := (0, false) })] }

/-- The download of the scenario before registration, with stream state `s`. -/
def scenarioDownload {S : Type} (s : S) : P3DDownload S :=
  { _download_id := 0, _url := "http://x/a.bin", _state := s }

/-- The request of the scenario. -/
def scenarioRequest : P3D_request :=
  { _instance := 0
    _request_type := P3D_request_type.P3D_RT_get_url
    _url := "http://x/a.bin"
    _unique_id := 1 }

/-- The token stored for one entry of the constructor's token array: a `NULL`
keyword or value is stored as the empty string. -/
def stored_token (t : P3D_token) : Token :=
  { _keyword := t._keyword.getD "", _value := t._value.getD "" }

/-- Whether the call is one of `has_request`, `get_request`, `add_request`,
`finish_request`. -/
def Call.isQueueOp {S : Type} : Call S → Bool
  | Call.has_request _ => true
  | Call.get_request _ => true
  | Call.add_request _ _ => true
  | Call.finish_request _ _ _ => true
  | _ => false

/-- Sample tokens: the keyword "src" twice, and a token with a `NULL` keyword. -/
def sampleTokens : List P3D_token :=
  [{ _keyword := some "src", _value := some "a.p3d" },
   { _keyword := none, _value := some "orphan" },
   { _keyword := some "src", _value := some "b.p3d" },
   { _keyword := some "width", _value := none }]

/-- The process once `feed_url_stream` has run on the instance `inst` at
address `a`. -/
def Process.fed {S : Type} (ops : DownloadOps S) (p : Process S) (a : Nat)
    (inst : P3DInstance S) (unique_id : Int) (rc : P3D_result_code) (hs : Int) (te : Nat)
    (td : List Nat) : Process S :=
  { _next_instance_id := p._next_instance_id
    heap := p.heap.set a (feed_url_stream ops inst unique_id rc hs te td).2 }

/-- The process once a queue method has put `inst` back at address `a`. -/
def Process.withInstance {S : Type} (p : Process S) (a : Nat) (inst : P3DInstance S) :
    Process S :=
  { _next_instance_id := p._next_instance_id, heap := p.heap.set a inst }

/-- The process once `start_download` has registered `d` on the instance
`inst` at address `a`. -/
def Process.afterStart {S : Type} (p : Process S) (a : Nat) (inst : P3DInstance S)
    (d : P3DDownload S) : Process S :=
  { _next_instance_id := p._next_instance_id + 1
    heap := p.heap.set a (started a p._next_instance_id inst d) }

/-- The invariant of the registry entries: the download stored under a key
carries that key as its id, and the key is at least 1 and below the counter. -/
def Process.EntriesInv {S : Type} (p : Process S) : Prop :=
  ∀ inst ∈ p.heap, ∀ e ∈ inst._downloads,
    e.2._download_id = e.1 ∧ 1 ≤ e.1 ∧ e.1 < p._next_instance_id

/-- A run that keeps a history: like `Process.run`, and after each returning
call the history `g` is extended by `track` from the state before the call,
the call, its result and the state after it. -/
def Process.runWith {S G : Type} (ops : DownloadOps S)
    (track : Process S → Call S → Ret S → Process S → G → G) :
    Process S → G → List (Call S) → Option (Process S × G)
  | p, g, [] => some (p, g)
  | p, g, c :: cs =>
    match Process.call ops p c with
    | none => none
    | some (r, p') =>
      if r.aborted then none
      else Process.runWith ops track p' (track p c r p' g) cs

/-- A download that a returning `start_download` has taken: the instance that
took it, the download object as it is now (as it was when it was deleted, once
it is deleted), and whether its ingestion has ever returned false. -/
structure Started (S : Type) where
  owner : Nat
  download : P3DDownload S
  rejected : Bool

/-- The started download `s` once the instance at `a` has forwarded a chunk
under `unique_id`: when `s` is the download started on that instance under
that id, its ingestion has run (its stream state has advanced, and it counts
as rejected once the ingestion returns false); otherwise `s` is as it was. -/
def Started.fed {S : Type} (ops : DownloadOps S) (a : Nat) (unique_id : Int)
    (rc : P3D_result_code) (hs : Int) (te : Nat) (td : List Nat) (s : Started S) : Started S :=
  if s.owner = a ∧ s.download._download_id = unique_id then
    { owner := s.owner
      download :=
        { s.download with _state := (ops.feed_url_stream s.download._state rc hs te td).2 }
      rejected := s.rejected || !(ops.feed_url_stream s.download._state rc hs te td).1 }
  else s

/-- The history of the downloads passed to `start_download`. A returning
`start_download` adds its download, not rejected so far. A `feed_url_stream`
that finds its id in the registry forwards the chunk to the download started
on that instance under that id. -/
def trackStarted {S : Type} (ops : DownloadOps S) (p : Process S) (c : Call S) (r : Ret S)
    (_p' : Process S) (log : List (Started S)) : List (Started S) :=
  match c, r with
  | Call.start_download a _, Ret.download Outcome.returned d' =>
    log ++ [{ owner := a, download := d', rejected := false }]
  | Call.feed_url_stream a unique_id rc hs te td, _ =>
    match Downloads.find unique_id (p.registry a) with
    | none => log
    | some _ => log.map (Started.fed ops a unique_id rc hs te td)
  | _, _ => log

/-- Whether the call, when it is a `start_download`, passes a download that
does not report finished at that moment. `start_download` does not test this
itself. -/
def Call.startsPending {S : Type} (ops : DownloadOps S) : Call S → Bool
  | Call.start_download _ d => !ops.get_download_finished d._state
  | _ => true

/-- What an id taken from the counter is used for. -/
inductive IdKind where
  | instance_id
  | download_id
  deriving DecidableEq, Repr

/-- The history of the ids handed out: a construction adds the id that the
new instance carries, a returning `start_download` the id that its download
carries afterwards; no other call adds one. -/
def trackIds {S : Type} (_p : Process S) (c : Call S) (r : Ret S) (p' : Process S)
    (log : List (IdKind × Int)) : List (IdKind × Int) :=
  match c, r with
  | Call.construct _, Ret.pointer a =>
    match p'.heap[a]? with
    | some inst => log ++ [(IdKind.instance_id, inst._instance_id)]
    | none => log
  | Call.start_download _ _, Ret.download Outcome.returned d' =>
    log ++ [(IdKind.download_id, d'._download_id)]
  | _, _ => log

/-- Whether the call is a construction or a `start_download`. -/
def Call.takesId {S : Type} : Call S → Bool
  | Call.construct _ => true
  | Call.start_download _ _ => true
  | _ => false

/-- The invariant of the history of started downloads. -/
def StartedInv {S : Type} (ops : DownloadOps S) (p : Process S) (log : List (Started S)) :
    Prop :=
  (∀ (a : Nat) (inst : P3DInstance S), p.heap[a]? = some inst → ∀ e ∈ inst._downloads,
    { owner := a, download := e.2, rejected := false } ∈ log ∧ e.2._download_id = e.1 ∧
      ops.get_download_finished e.2._state = false) ∧
  (∀ s ∈ log, s.rejected = false → ops.get_download_finished s.download._state = false →
    ∃ inst, p.heap[s.owner]? = some inst ∧ (s.download._download_id, s.download) ∈ inst._downloads) ∧
  (∀ s ∈ log, s.download._download_id < p._next_instance_id) ∧
  (∀ s ∈ log, ∀ t ∈ log, s.download._download_id = t.download._download_id → s = t)

/-- The invariant of the history of ids: the ids handed out so far are 0, 1,
2, ... in this order, the counter is their number, every instance id and
every stored download id is among them under its own kind. -/
def IdsInv {S : Type} (p : Process S) (log : List (IdKind × Int)) : Prop :=
  log.map Prod.snd = (List.range log.length).map Int.ofNat ∧
  p._next_instance_id = (log.length : Int) ∧
  (∀ inst ∈ p.heap, (IdKind.instance_id, inst._instance_id) ∈ log) ∧
  (∀ inst ∈ p.heap, ∀ e ∈ inst._downloads, (IdKind.download_id, e.2._download_id) ∈ log)

/-- Sample calls: two instances are constructed and each starts the sample
download. -/
def sampleCalls2 : List (Call (Nat × Bool)) :=
  [Call.construct [], Call.start_download 0 sampleDownload, Call.construct [],
    Call.start_download 1 sampleDownload]

/-- The process at the end of the sample calls. -/
def sampleProcess2 : Process (Nat × Bool) :=
  { _next_instance_id := 4
    heap :=
      [{ _instance_id := 0, _tokens := [], _pending_requests := [sampleRequest 1]
         _downloads := [(1, { _download_id := 1, _url := "http://x/a.bin", _state := (0, false) })] },
       { _instance_id := 2, _tokens := []
         _pending_requests :=
           [{ _instance := 1, _request_type := P3D_request_type.P3D_RT_get_url
              _url := "http://x/a.bin", _unique_id := 3 }]
         _downloads :=
           [(3, { _download_id := 3, _url := "http://x/a.bin", _state := (0, false) })] }] }

/-- Sample calls: an instance is constructed, the sample download is started
and receives 3 of 10 expected bytes. -/
def sampleCalls3 : List (Call (Nat × Bool)) :=
  [Call.construct [], Call.start_download 0 sampleDownload,
    Call.feed_url_stream 0 1 0 200 10 [7, 8, 9]]

/-- The sample download after 3 of 10 bytes. -/
def sampleDownload3 : P3DDownload (Nat × Bool) :=
  { _download_id := 1, _url := "http://x/a.bin", _state := (3, false) }

/-- The process at the end of `sampleCalls3`. -/
def sampleProcess3 : Process (Nat × Bool) :=
  { _next_instance_id := 2
    heap :=
      [{ _instance_id := 0, _tokens := [], _pending_requests := [sampleRequest 1]
         _downloads := [(1, sampleDownload3)] }] }

/-- A download that already reports finished before it is registered. -/
def finishedDownload : P3DDownload (Nat × Bool) :=
  { _download_id := 0, _url := "http://x/a.bin", _state := (0, true) }

/-! ## Two threads inside `start_download` -/

/-- The statement of `start_download` that a thread runs next, named by its
source line: the assertion on the id (253), the read of the counter into the
local `download_id` (255), the increment of the counter (256),
`set_download_id` (257), the insert with its assertion (259, 260), the
request built and passed to `add_request` (265 to 271); `finished` once the
call has ended. -/
inductive StartPc where
  | line253
  | line255
  | line256
  | line257
  | line259
  | line265
  | finished
  deriving DecidableEq, Repr

/-- A thread inside `start_download`: the statement it runs next, the download
object it was called with, its local variable `download_id`, and how the call
ended once it has ended. -/
structure StartThread (S : Type) where
  pc : StartPc
  download : P3DDownload S
  download_id : Int
  outcome : Option Outcome
  deriving DecidableEq, Repr

/-- A thread that has just entered `start_download` with the download `d`. -/
def StartThread.enter {S : Type} (d : P3DDownload S) : StartThread S :=
  { pc := StartPc.line253, download := d, download_id := 0, outcome := none }

/-- Whether the thread's call ended in a failed assertion. -/
def StartThread.failed {S : Type} (t : StartThread S) : Bool :=
  match t.outcome with
  | some (Outcome.assert_failed _) => true
  | _ => false

/-- One statement of `P3DInstance::start_download`, run by the thread `t` on
the instance at address `this` with the static counter at `next`: the
statements of the method in source order, each reading and writing the shared
counter and instance as they are when it runs. No statement before
`add_request` takes a lock. -/
def start_download_step {S : Type} (this : Nat) (next : Int) (inst : P3DInstance S)
    (t : StartThread S) : Int × P3DInstance S × StartThread S :=
  match t.pc with
  | StartPc.line253 =>
    if t.download.get_download_id ≠ 0 then
      (next, inst,
        { t with pc := StartPc.finished
                 outcome := some (Outcome.assert_failed download_id_assertion) })
    else (next, inst, { t with pc := StartPc.line255 })
  | StartPc.line255 => (next, inst, { t with download_id := next, pc := StartPc.line256 })
  | StartPc.line256 => (next + 1, inst, { t with pc := StartPc.line257 })
  | StartPc.line257 =>
    (next, inst,
      { t with download := t.download.set_download_id t.download_id, pc := StartPc.line259 })
  | StartPc.line259 =>
    let ins := Downloads.insert t.download_id t.download inst._downloads
    let inst := { inst with _downloads := ins.1 }
    if !ins.2 then
      (next, inst,
        { t with pc := StartPc.finished
                 outcome := some (Outcome.assert_failed inserted_assertion) })
    else (next, inst, { t with pc := StartPc.line265 })
  | StartPc.line265 =>
    let request : P3D_request :=
      { _instance := this
        _request_type := P3D_request_type.P3D_RT_get_url
        _url := c_str t.download.get_url
        _unique_id := t.download_id }
    let added := add_request this inst request
    (next, added.2, { t with pc := StartPc.finished, outcome := some added.1 })
  | StartPc.finished => (next, inst, t)

/-- The statements of one thread run `n` times in a row. -/
def start_download_steps {S : Type} (this : Nat) :
    Nat → Int × P3DInstance S × StartThread S → Int × P3DInstance S × StartThread S
  | 0, x => x
  | n + 1, x => start_download_steps this n (start_download_step this x.1 x.2.1 x.2.2)

/-- Two threads inside `start_download` on the same instance: the shared
counter and instance, and the two threads. -/
structure Threads (S : Type) where
  _next_instance_id : Int
  inst : P3DInstance S
  first : StartThread S
  second : StartThread S
  deriving DecidableEq, Repr

/-- Whether an assertion has failed in one of the threads, which ends the
process. -/
def Threads.aborted {S : Type} (c : Threads S) : Bool :=
  c.first.failed || c.second.failed

/-- One step of the schedule: the chosen thread (`true` for the second) runs
its next statement, unless the process has ended. -/
def Threads.step {S : Type} (this : Nat) (c : Threads S) (who : Bool) : Threads S :=
  if c.aborted then c
  else if who then
    let r := start_download_step this c._next_instance_id c.inst c.second
    { _next_instance_id := r.1, inst := r.2.1, first := c.first, second := r.2.2 }
  else
    let r := start_download_step this c._next_instance_id c.inst c.first
    { _next_instance_id := r.1, inst := r.2.1, first := r.2.2, second := c.second }

/-- The two threads run under a schedule, one statement per entry. -/
def Threads.run {S : Type} (this : Nat) (c : Threads S) (schedule : List Bool) : Threads S :=
  schedule.foldl (Threads.step this) c

/-- Two threads that have just entered `start_download` with `d1` and `d2`. -/
def Threads.enter {S : Type} (next : Int) (inst : P3DInstance S) (d1 d2 : P3DDownload S) :
    Threads S :=
  { _next_instance_id := next, inst := inst
    first := StartThread.enter d1, second := StartThread.enter d2 }

/-- A thread whose `start_download` has returned with the id `download_id`
assigned to `d`. -/
def StartThread.returned {S : Type} (d : P3DDownload S) (download_id : Int) : StartThread S :=
  { pc := StartPc.finished, download := d.set_download_id download_id
    download_id := download_id, outcome := some Outcome.returned }

theorem heap_set_same {α : Type} (l : List α) (a : Nat) (x : α) (h : l[a]? = some x) :
    l.set a x = l := by
  induction l generalizing a with
  | nil => rfl
  | cons y ys ih =>
    cases a with
    | zero => simp at h; simp [h]
    | succ n => simp at h; simp [ih n h]

theorem heap_get_set_same {α : Type} (l : List α) (a : Nat) (x y : α) (h : l[a]? = some x) :
    (l.set a y)[a]? = some y := by
  induction l generalizing a with
  | nil => simp at h
  | cons z zs ih =>
    cases a with
    | zero => simp
    | succ n => simp at h; simpa using ih n h

theorem heap_get_set_other {α : Type} (l : List α) (a b : Nat) (y : α) (h : a ≠ b) :
    (l.set a y)[b]? = l[b]? := by
  induction l generalizing a b with
  | nil => simp
  | cons z zs ih =>
    cases a with
    | zero =>
      cases b with
      | zero => exact absurd rfl h
      | succ m => simp
    | succ n =>
      cases b with
      | zero => simp
      | succ m => simpa using ih n m (fun e => h (by rw [e]))

/-! ## Lemmas on the queue methods -/

theorem get_request_nil {S : Type} (inst : P3DInstance S) (h : inst._pending_requests = []) :
    get_request inst = (none, inst) := by
  simp [get_request, h]

theorem get_request_cons {S : Type} (inst : P3DInstance S) (r : P3D_request)
    (rest : List P3D_request) (h : inst._pending_requests = r :: rest) :
    get_request inst = (some r, { inst with _pending_requests := rest }) := by
  simp [get_request, h]

theorem add_request_ok {S : Type} (this : Nat) (inst : P3DInstance S) (request : P3D_request)
    (h : request._instance = this) :
    add_request this inst request =
      (Outcome.returned,
        { inst with _pending_requests := inst._pending_requests ++ [request] }) := by
  simp [add_request, h]

theorem add_request_fail {S : Type} (this : Nat) (inst : P3DInstance S)
    (request : P3D_request) (h : request._instance ≠ this) :
    add_request this inst request = (Outcome.assert_failed add_request_assertion, inst) := by
  simp [add_request, h]

/-- The queue invariant behind first-in first-out delivery: along a run of
queue calls on one instance, the old queue followed by the requests added is
the requests delivered followed by the new queue. -/
theorem queue_run_invariant {S : Type} (ops : DownloadOps S) (a : Nat) (cs : List (Call S))
    (hcs : ∀ c ∈ cs, Call.isQueueCallOn a c = true) :
    ∀ (p : Process S) (inst : P3DInstance S), p.heap[a]? = some inst →
      ∃ rs p', Process.run ops p cs = some (rs, p') ∧
        inst._pending_requests ++ added_requests cs = delivered_requests rs ++ p'.queue a := by
  induction cs with
  | nil =>
    intro p inst hp
    exact ⟨[], p, rfl, by simp [added_requests, delivered_requests, Process.queue, hp]⟩
  | cons c cs ih =>
    intro p inst hp
    have hc := hcs c (List.mem_cons_self c cs)
    have hrest : ∀ c' ∈ cs, Call.isQueueCallOn a c' = true :=
      fun c' hc' => hcs c' (List.mem_cons_of_mem c hc')
    cases c with
    | add_request this request =>
      simp [Call.isQueueCallOn] at hc
      obtain ⟨rfl, hreq⟩ := hc
      have hp' : (p.heap.set this (add_request this inst request).2)[this]? =
          some (add_request this inst request).2 := heap_get_set_same _ _ _ _ hp
      obtain ⟨rs, p', hrun, hinv⟩ :=
        ih hrest { p with heap := p.heap.set this (add_request this inst request).2 } _ hp'
      refine ⟨Ret.void Outcome.returned :: rs, p', ?_, ?_⟩
      · simp [Process.run, Process.call, hp, add_request_ok this inst request hreq,
          Ret.aborted] at hrun ⊢
        simp [hrun]
      · simp [add_request_ok this inst request hreq] at hinv
        simpa [added_requests, delivered_requests] using hinv
    | get_request this =>
      simp [Call.isQueueCallOn] at hc
      subst hc
      have hp' : (p.heap.set this (get_request inst).2)[this]? = some (get_request inst).2 :=
        heap_get_set_same _ _ _ _ hp
      obtain ⟨rs, p', hrun, hinv⟩ :=
        ih hrest { p with heap := p.heap.set this (get_request inst).2 } _ hp'
      refine ⟨Ret.request (get_request inst).1 :: rs, p', ?_, ?_⟩
      · simp [Process.run, Process.call, hp, Ret.aborted] at hrun ⊢
        simp [hrun]
      · cases hq : inst._pending_requests with
        | nil =>
          rw [get_request_nil inst hq] at hinv ⊢
          simpa [added_requests, delivered_requests, hq] using hinv
        | cons r rest =>
          rw [get_request_cons inst r rest hq] at hinv ⊢
          simpa [added_requests, delivered_requests, hq] using hinv
    | construct tokens => simp [Call.isQueueCallOn] at hc
    | has_request this => simp [Call.isQueueCallOn] at hc
    | finish_request this request handled => simp [Call.isQueueCallOn] at hc
    | feed_url_stream this u rc hs te td => simp [Call.isQueueCallOn] at hc
    | start_download this d => simp [Call.isQueueCallOn] at hc

/-! ## Lemmas on the registry -/

theorem find_cons {S : Type} (j k : Int) (d : P3DDownload S) (rest : Downloads S) :
    Downloads.find j ((k, d) :: rest) = if k = j then some d else Downloads.find j rest :=
  rfl

theorem erase_cons {S : Type} (k k' : Int) (d' : P3DDownload S) (rest : Downloads S) :
    Downloads.erase k ((k', d') :: rest) =
      if k' = k then Downloads.erase k rest else (k', d') :: Downloads.erase k rest := by
  by_cases h : k' = k <;> simp [Downloads.erase, List.filter_cons, h]

theorem writeBack_cons {S : Type} (k k' : Int) (d d' : P3DDownload S) (rest : Downloads S) :
    Downloads.writeBack k d ((k', d') :: rest) =
      (if k' = k then (k', d) else (k', d')) :: Downloads.writeBack k d rest :=
  rfl

theorem orderedInsert_cons {S : Type} (k k' : Int) (d d' : P3DDownload S) (rest : Downloads S) :
    Downloads.orderedInsert k d ((k', d') :: rest) =
      if k < k' then (k, d) :: (k', d') :: rest
      else (k', d') :: Downloads.orderedInsert k d rest :=
  rfl

theorem find_erase_self {S : Type} (k : Int) (m : Downloads S) :
    Downloads.find k (Downloads.erase k m) = none := by
  induction m with
  | nil => rfl
  | cons e rest ih =>
    obtain ⟨k', d'⟩ := e
    rw [erase_cons]
    by_cases h : k' = k
    · rw [if_pos h]; exact ih
    · rw [if_neg h, find_cons, if_neg h]; exact ih

theorem find_erase_other {S : Type} (k j : Int) (m : Downloads S) (hne : j ≠ k) :
    Downloads.find j (Downloads.erase k m) = Downloads.find j m := by
  induction m with
  | nil => rfl
  | cons e rest ih =>
    obtain ⟨k', d'⟩ := e
    rw [erase_cons, find_cons]
    by_cases h : k' = k
    · have hj : ¬ k' = j := fun e => hne (by rw [← e, h])
      rw [if_pos h, if_neg hj]; exact ih
    · rw [if_neg h, find_cons, ih]

theorem find_writeBack_other {S : Type} (k j : Int) (d : P3DDownload S) (m : Downloads S)
    (hne : j ≠ k) :
    Downloads.find j (Downloads.writeBack k d m) = Downloads.find j m := by
  induction m with
  | nil => rfl
  | cons e rest ih =>
    obtain ⟨k', d'⟩ := e
    rw [writeBack_cons]
    by_cases h : k' = k
    · have hj : ¬ k' = j := fun e => hne (by rw [← e, h])
      rw [if_pos h, find_cons, find_cons, if_neg hj, if_neg hj]; exact ih
    · rw [if_neg h, find_cons, find_cons, ih]

theorem find_writeBack_self {S : Type} (k : Int) (d d0 : P3DDownload S) (m : Downloads S)
    (h0 : Downloads.find k m = some d0) :
    Downloads.find k (Downloads.writeBack k d m) = some d := by
  induction m with
  | nil => simp [Downloads.find] at h0
  | cons e rest ih =>
    obtain ⟨k', d'⟩ := e
    rw [writeBack_cons]
    rw [find_cons] at h0
    by_cases h : k' = k
    · rw [if_pos h, find_cons, if_pos h]
    · rw [if_neg h] at h0
      rw [if_neg h, find_cons, if_neg h]; exact ih h0

theorem find_none_iff_not_key {S : Type} (k : Int) (m : Downloads S) :
    Downloads.find k m = none ↔ k ∉ Downloads.keys m := by
  induction m with
  | nil => simp [Downloads.find, Downloads.keys]
  | cons e rest ih =>
    obtain ⟨k', d'⟩ := e
    by_cases h : k' = k
    · simp [Downloads.find, Downloads.keys, h]
    · have h' : ¬ k = k' := fun e => h e.symm
      simpa [Downloads.find, Downloads.keys, h, h'] using ih

theorem keys_erase_subset {S : Type} (k : Int) (m : Downloads S) :
    ∀ j ∈ Downloads.keys (Downloads.erase k m), j ∈ Downloads.keys m := by
  intro j hj
  simp only [Downloads.keys, Downloads.erase, List.mem_map, List.mem_filter] at hj ⊢
  obtain ⟨e, ⟨he, _⟩, rfl⟩ := hj
  exact ⟨e, he, rfl⟩

theorem keys_writeBack {S : Type} (k : Int) (d : P3DDownload S) (m : Downloads S) :
    Downloads.keys (Downloads.writeBack k d m) = Downloads.keys m := by
  induction m with
  | nil => rfl
  | cons e rest ih =>
    simp only [Downloads.keys, Downloads.writeBack, List.map_cons] at ih ⊢
    rw [ih]
    by_cases h : e.1 = k <;> simp [h]

theorem keys_orderedInsert {S : Type} (k : Int) (d : P3DDownload S) (m : Downloads S) :
    ∀ j, j ∈ Downloads.keys (Downloads.orderedInsert k d m) ↔ j = k ∨ j ∈ Downloads.keys m := by
  induction m with
  | nil => intro j; simp [Downloads.orderedInsert, Downloads.keys]
  | cons e rest ih =>
    intro j
    obtain ⟨k', d'⟩ := e
    by_cases h : k < k'
    · simp [Downloads.orderedInsert, h, Downloads.keys]
    · have := ih j
      simp only [Downloads.keys] at this
      simp [Downloads.orderedInsert, h, Downloads.keys, this]
      tauto

theorem find_orderedInsert_self {S : Type} (k : Int) (d : P3DDownload S) (m : Downloads S)
    (h0 : Downloads.find k m = none) :
    Downloads.find k (Downloads.orderedInsert k d m) = some d := by
  induction m with
  | nil => simp [Downloads.orderedInsert, Downloads.find]
  | cons e rest ih =>
    obtain ⟨k', d'⟩ := e
    rw [find_cons] at h0
    rw [orderedInsert_cons]
    by_cases hk : k' = k
    · rw [if_pos hk] at h0; exact absurd h0 (by simp)
    · rw [if_neg hk] at h0
      by_cases h : k < k'
      · rw [if_pos h, find_cons, if_pos rfl]
      · rw [if_neg h, find_cons, if_neg hk]; exact ih h0

theorem feed_url_stream_unknown {S : Type} (ops : DownloadOps S) (inst : P3DInstance S)
    (unique_id : Int) (rc : P3D_result_code) (hs : Int) (te : Nat) (td : List Nat)
    (h : Downloads.find unique_id inst._downloads = none) :
    feed_url_stream ops inst unique_id rc hs te td = (false, inst) := by
  simp [feed_url_stream, h]

theorem feed_url_stream_retire {S : Type} (ops : DownloadOps S) (inst : P3DInstance S)
    (unique_id : Int) (d : P3DDownload S) (rc : P3D_result_code) (hs : Int) (te : Nat)
    (td : List Nat) (h : Downloads.find unique_id inst._downloads = some d)
    (hterm : (ops.feed_url_stream d._state rc hs te td).1 = false ∨
      ops.get_download_finished (ops.feed_url_stream d._state rc hs te td).2 = true) :
    feed_url_stream ops inst unique_id rc hs te td =
      ((ops.feed_url_stream d._state rc hs te td).1,
        { inst with _downloads := Downloads.erase unique_id inst._downloads }) := by
  rcases hterm with h1 | h1 <;> simp [feed_url_stream, h, h1]

theorem feed_url_stream_keep {S : Type} (ops : DownloadOps S) (inst : P3DInstance S)
    (unique_id : Int) (d : P3DDownload S) (rc : P3D_result_code) (hs : Int) (te : Nat)
    (td : List Nat) (h : Downloads.find unique_id inst._downloads = some d)
    (hok : (ops.feed_url_stream d._state rc hs te td).1 = true)
    (hnot : ops.get_download_finished (ops.feed_url_stream d._state rc hs te td).2 = false) :
    feed_url_stream ops inst unique_id rc hs te td =
      (true,
        { inst with
          _downloads :=
            Downloads.writeBack unique_id
              ({ d with _state := (ops.feed_url_stream d._state rc hs te td).2 })
              inst._downloads }) := by
  simp [feed_url_stream, h, hok, hnot]

/-- Whatever the chunk, `feed_url_stream` touches only the registry, and there
only the entry under the fed id. -/
theorem feed_url_stream_frame {S : Type} (ops : DownloadOps S) (inst : P3DInstance S)
    (unique_id : Int) (rc : P3D_result_code) (hs : Int) (te : Nat) (td : List Nat) :
    (feed_url_stream ops inst unique_id rc hs te td).2._pending_requests =
        inst._pending_requests ∧
      (feed_url_stream ops inst unique_id rc hs te td).2._instance_id = inst._instance_id ∧
      (feed_url_stream ops inst unique_id rc hs te td).2._tokens = inst._tokens ∧
      (∀ j, j ≠ unique_id →
        Downloads.find j (feed_url_stream ops inst unique_id rc hs te td).2._downloads =
          Downloads.find j inst._downloads) ∧
      (∀ j, j ∈ Downloads.keys (feed_url_stream ops inst unique_id rc hs te td).2._downloads →
        j ∈ Downloads.keys inst._downloads) := by
  unfold feed_url_stream
  cases h : Downloads.find unique_id inst._downloads with
  | none => simp
  | some d =>
    simp only []
    split
    · refine ⟨rfl, rfl, rfl, fun j hj => find_erase_other _ _ _ hj, ?_⟩
      exact keys_erase_subset _ _
    · refine ⟨rfl, rfl, rfl, fun j hj => find_writeBack_other _ _ _ _ hj, ?_⟩
      intro j hj
      simpa [keys_writeBack] using hj

/-! ## Lemmas on `start_download` -/

theorem start_download_reject {S : Type} (this : Nat) (next : Int) (inst : P3DInstance S)
    (d : P3DDownload S) (h : d._download_id ≠ 0) :
    start_download this next inst d =
      (Outcome.assert_failed download_id_assertion, next, inst, d) := by
  simp [start_download, P3DDownload.get_download_id, h]

theorem start_download_ok {S : Type} (this : Nat) (next : Int) (inst : P3DInstance S)
    (d : P3DDownload S) (h : d._download_id = 0)
    (hfree : Downloads.find next inst._downloads = none) :
    start_download this next inst d =
      (Outcome.returned, next + 1,
        { inst with
          _downloads := Downloads.orderedInsert next (d.set_download_id next) inst._downloads
          _pending_requests := inst._pending_requests ++ [get_url_request this next d] },
        d.set_download_id next) := by
  simp [start_download, P3DDownload.get_download_id, h, Downloads.insert, hfree, add_request,
    get_url_request, P3DDownload.get_url, P3DDownload.set_download_id]

theorem start_download_collide {S : Type} (this : Nat) (next : Int) (inst : P3DInstance S)
    (d d0 : P3DDownload S) (h : d._download_id = 0)
    (hused : Downloads.find next inst._downloads = some d0) :
    start_download this next inst d =
      (Outcome.assert_failed inserted_assertion, next + 1, inst, d.set_download_id next) := by
  simp [start_download, P3DDownload.get_download_id, h, Downloads.insert, hused]

/-! ## The invariant of the reachable states -/

theorem fresh_inv {S : Type} : (Process.fresh : Process S).Inv := by
  constructor
  · simp [Process.fresh]
  · intro inst hinst
    simp [Process.fresh] at hinst

/-- A method call that leaves the counter alone and gives the instance no new
key keeps the invariant. -/
theorem inv_set_same_keys {S : Type} (p : Process S) (this : Nat) (inst inst' : P3DInstance S)
    (hinv : p.Inv) (hp : p.heap[this]? = some inst)
    (hkeys : ∀ j ∈ Downloads.keys inst'._downloads, j ∈ Downloads.keys inst._downloads) :
    ({ p with heap := p.heap.set this inst' } : Process S).Inv := by
  obtain ⟨hlen, hk⟩ := hinv
  constructor
  · simpa using hlen
  · intro i hi k hkin
    rcases List.mem_or_eq_of_mem_set hi with hmem | rfl
    · exact hk i hmem k hkin
    · exact hk inst (List.getElem?_mem hp) k (hkeys k hkin)

/-- One call keeps the invariant, never lowers the counter, and a
`start_download` that returns has assigned the old counter value and advanced
the counter by one. -/
theorem call_inv {S : Type} (ops : DownloadOps S) (p p' : Process S) (c : Call S) (r : Ret S)
    (hinv : p.Inv) (hcall : Process.call ops p c = some (r, p')) :
    p'.Inv ∧ p._next_instance_id ≤ p'._next_instance_id ∧
      ∀ d, r = Ret.download Outcome.returned d →
        d._download_id = p._next_instance_id ∧
          p'._next_instance_id = p._next_instance_id + 1 := by
  cases c with
  | construct tokens =>
    simp [Process.call, construct] at hcall
    obtain ⟨rfl, rfl⟩ := hcall
    refine ⟨⟨?_, ?_⟩, by simp, by simp⟩
    · have := hinv.1
      simp
      omega
    · intro i hi k hkin
      simp at hi
      rcases hi with hmem | rfl
      · have := hinv.2 i hmem k hkin
        simp
        omega
      · simp [Downloads.keys] at hkin
  | has_request this =>
    cases hp : p.heap[this]? with
    | none => simp [Process.call, hp] at hcall
    | some inst =>
      simp [Process.call, hp] at hcall
      obtain ⟨rfl, rfl⟩ := hcall
      exact ⟨inv_set_same_keys p this inst _ hinv hp (fun j hj => hj), le_refl _, by simp⟩
  | get_request this =>
    cases hp : p.heap[this]? with
    | none => simp [Process.call, hp] at hcall
    | some inst =>
      simp [Process.call, hp] at hcall
      obtain ⟨rfl, rfl⟩ := hcall
      refine ⟨inv_set_same_keys p this inst _ hinv hp ?_, le_refl _, by simp⟩
      intro j hj
      unfold get_request at hj
      split at hj <;> exact hj
  | add_request this request =>
    cases hp : p.heap[this]? with
    | none => simp [Process.call, hp] at hcall
    | some inst =>
      simp [Process.call, hp] at hcall
      obtain ⟨rfl, rfl⟩ := hcall
      refine ⟨inv_set_same_keys p this inst _ hinv hp ?_, le_refl _, by simp⟩
      intro j hj
      unfold add_request at hj
      split at hj <;> exact hj
  | finish_request this request handled =>
    cases hp : p.heap[this]? with
    | none => simp [Process.call, hp] at hcall
    | some inst =>
      simp [Process.call, hp] at hcall
      obtain ⟨rfl, rfl⟩ := hcall
      refine ⟨inv_set_same_keys p this inst _ hinv hp ?_, le_refl _, by simp⟩
      intro j hj
      unfold finish_request at hj
      split at hj <;> exact hj
  | feed_url_stream this u rc hs te td =>
    cases hp : p.heap[this]? with
    | none => simp [Process.call, hp] at hcall
    | some inst =>
      simp [Process.call, hp] at hcall
      obtain ⟨rfl, rfl⟩ := hcall
      exact ⟨inv_set_same_keys p this inst _ hinv hp
        (feed_url_stream_frame ops inst u rc hs te td).2.2.2.2, le_refl _, by simp⟩
  | start_download this d =>
    cases hp : p.heap[this]? with
    | none => simp [Process.call, hp] at hcall
    | some inst =>
      simp [Process.call, hp] at hcall
      obtain ⟨rfl, rfl⟩ := hcall
      by_cases hid : d._download_id = 0
      · cases hfind : Downloads.find p._next_instance_id inst._downloads with
        | none =>
          rw [start_download_ok this _ inst d hid hfind]
          refine ⟨⟨?_, ?_⟩, by simp, ?_⟩
          · have := hinv.1
            simp
            omega
          · intro i hi k hkin
            simp only [] at hi ⊢
            rcases List.mem_or_eq_of_mem_set hi with hmem | rfl
            · have := hinv.2 i hmem k hkin
              omega
            · simp only [] at hkin
              rcases (keys_orderedInsert _ _ _ k).1 hkin with rfl | hold
              · omega
              · have := hinv.2 inst (List.getElem?_mem hp) k hold
                omega
          · intro d' hd'
            simp at hd'
            subst hd'
            simp [P3DDownload.set_download_id]
        | some d0 =>
          rw [start_download_collide this _ inst d d0 hid hfind]
          refine ⟨⟨?_, ?_⟩, by simp, by simp⟩
          · have := hinv.1
            simp
            omega
          · intro i hi k hkin
            simp only [] at hi ⊢
            rcases List.mem_or_eq_of_mem_set hi with hmem | rfl
            · have := hinv.2 i hmem k hkin
              omega
            · have := hinv.2 i (List.getElem?_mem hp) k hkin
              omega
      · rw [start_download_reject this _ inst d hid]
        exact ⟨inv_set_same_keys p this inst _ hinv hp (fun j hj => hj), le_refl _, by simp⟩

/-- A run keeps the invariant, never lowers the counter, and every id it
assigned lies between the counter before and the counter after. -/
theorem run_inv {S : Type} (ops : DownloadOps S) (cs : List (Call S)) :
    ∀ (p p' : Process S) (rs : List (Ret S)), p.Inv →
      Process.run ops p cs = some (rs, p') →
      p'.Inv ∧ p._next_instance_id ≤ p'._next_instance_id ∧
        ∀ k ∈ assigned_ids rs, p._next_instance_id ≤ k ∧ k < p'._next_instance_id := by
  induction cs with
  | nil =>
    intro p p' rs hinv hrun
    simp [Process.run] at hrun
    obtain ⟨rfl, rfl⟩ := hrun
    exact ⟨hinv, le_refl _, by simp [assigned_ids]⟩
  | cons c cs ih =>
    intro p p' rs hinv hrun
    unfold Process.run at hrun
    cases hcall : Process.call ops p c with
    | none => simp [hcall] at hrun
    | some rp =>
      obtain ⟨r, p1⟩ := rp
      simp only [hcall] at hrun
      by_cases hab : r.aborted = true
      · simp [hab] at hrun
      · simp only [hab] at hrun
        cases hrest : Process.run ops p1 cs with
        | none => simp [hrest] at hrun
        | some rsp =>
          obtain ⟨rs', p2⟩ := rsp
          simp [hrest] at hrun
          obtain ⟨rfl, rfl⟩ := hrun
          obtain ⟨hinv1, hle1, hassign⟩ := call_inv ops p p1 c r hinv hcall
          obtain ⟨hinv2, hle2, hids⟩ := ih p1 p2 rs' hinv1 hrest
          refine ⟨hinv2, le_trans hle1 hle2, ?_⟩
          intro k hk
          have hold : ∀ k ∈ assigned_ids rs',
              p._next_instance_id ≤ k ∧ k < p2._next_instance_id :=
            fun k hk => ⟨le_trans hle1 (hids k hk).1, (hids k hk).2⟩
          cases r with
          | download o d =>
            cases o with
            | returned =>
              simp only [assigned_ids, List.mem_cons] at hk
              rcases hk with rfl | hk
              · obtain ⟨h1, h2⟩ := hassign d rfl
                constructor
                · omega
                · omega
              · exact hold k hk
            | assert_failed e => exact hold k (by simpa [assigned_ids] using hk)
          | pointer t => exact hold k (by simpa [assigned_ids] using hk)
          | bool b => exact hold k (by simpa [assigned_ids] using hk)
          | request q => exact hold k (by simpa [assigned_ids] using hk)
          | void o => exact hold k (by simpa [assigned_ids] using hk)

/-! ## Lemmas on the registry of one instance along a run -/

theorem registry_of_some {S : Type} (p : Process S) (a : Nat) (inst : P3DInstance S)
    (h : p.heap[a]? = some inst) : p.registry a = inst._downloads := by
  simp [Process.registry, h]

theorem registry_congr {S : Type} (p q : Process S) (a : Nat) (h : q.heap[a]? = p.heap[a]?) :
    q.registry a = p.registry a := by
  simp [Process.registry, h]

/-- A method call on `this` that gives back `x` for the instance: the registry
at `a` is that of `x` when `a` is `this`, and the old one otherwise. -/
theorem registry_after_set {S : Type} (p q : Process S) (this a : Nat) (inst x : P3DInstance S)
    (hp : p.heap[this]? = some inst) (hq : q.heap = p.heap.set this x) :
    q.registry a = if this = a then x._downloads else p.registry a := by
  by_cases h : this = a
  · subst h
    have : q.heap[this]? = some x := by rw [hq]; exact heap_get_set_same _ _ _ _ hp
    simp [Process.registry, this]
  · have : q.heap[a]? = p.heap[a]? := by rw [hq]; exact heap_get_set_other _ _ _ _ h
    simp [Process.registry, this, h]

/-- A newly constructed instance, whose registry is empty, registers nothing at
any address. -/
theorem unregistered_after_append {S : Type} (p q : Process S) (x : P3DInstance S) (a : Nat)
    (unique_id : Int) (hq : q.heap = p.heap ++ [x]) (hx : x._downloads = [])
    (h : Downloads.find unique_id (p.registry a) = none) :
    Downloads.find unique_id (q.registry a) = none := by
  by_cases hlt : a < p.heap.length
  · have : q.heap[a]? = p.heap[a]? := by rw [hq]; exact List.getElem?_append_left hlt
    rw [registry_congr p q a this]
    exact h
  · by_cases heq : a = p.heap.length
    · have : q.heap[a]? = some x := by rw [hq, heq]; simp
      rw [registry_of_some q a x this, hx]
      rfl
    · have : q.heap[a]? = none := by
        rw [hq]
        apply List.getElem?_eq_none
        simp
        omega
      simp [Process.registry, this, Downloads.find]

/-- A call other than `start_download` on the instance at `a` does not make an
unregistered id a key of that instance's registry. -/
theorem call_keeps_unregistered {S : Type} (ops : DownloadOps S) (p p' : Process S)
    (c : Call S) (r : Ret S) (a : Nat) (unique_id : Int)
    (hc : Call.isStartDownloadOn a c = false)
    (hcall : Process.call ops p c = some (r, p'))
    (h : Downloads.find unique_id (p.registry a) = none) :
    Downloads.find unique_id (p'.registry a) = none := by
  cases c with
  | construct tokens =>
    simp [Process.call, construct] at hcall
    obtain ⟨rfl, rfl⟩ := hcall
    exact unregistered_after_append p _ _ a unique_id rfl rfl h
  | has_request this =>
    cases hp : p.heap[this]? with
    | none => simp [Process.call, hp] at hcall
    | some inst =>
      simp [Process.call, hp] at hcall
      obtain ⟨rfl, rfl⟩ := hcall
      rw [registry_after_set p _ this a inst _ hp rfl]
      split
      · rename_i e; subst e; simpa [has_request, registry_of_some p this inst hp] using h
      · exact h
  | get_request this =>
    cases hp : p.heap[this]? with
    | none => simp [Process.call, hp] at hcall
    | some inst =>
      simp [Process.call, hp] at hcall
      obtain ⟨rfl, rfl⟩ := hcall
      rw [registry_after_set p _ this a inst _ hp rfl]
      split
      · rename_i e; subst e
        rw [registry_of_some p this inst hp] at h
        unfold get_request
        split <;> exact h
      · exact h
  | add_request this request =>
    cases hp : p.heap[this]? with
    | none => simp [Process.call, hp] at hcall
    | some inst =>
      simp [Process.call, hp] at hcall
      obtain ⟨rfl, rfl⟩ := hcall
      rw [registry_after_set p _ this a inst _ hp rfl]
      split
      · rename_i e; subst e
        rw [registry_of_some p this inst hp] at h
        unfold add_request
        split <;> exact h
      · exact h
  | finish_request this request handled =>
    cases hp : p.heap[this]? with
    | none => simp [Process.call, hp] at hcall
    | some inst =>
      simp [Process.call, hp] at hcall
      obtain ⟨rfl, rfl⟩ := hcall
      rw [registry_after_set p _ this a inst _ hp rfl]
      split
      · rename_i e; subst e
        rw [registry_of_some p this inst hp] at h
        unfold finish_request
        split <;> exact h
      · exact h
  | feed_url_stream this u rc hs te td =>
    cases hp : p.heap[this]? with
    | none => simp [Process.call, hp] at hcall
    | some inst =>
      simp [Process.call, hp] at hcall
      obtain ⟨rfl, rfl⟩ := hcall
      rw [registry_after_set p _ this a inst _ hp rfl]
      split
      · rename_i e; subst e
        rw [registry_of_some p this inst hp] at h
        rw [find_none_iff_not_key] at h ⊢
        exact fun hk => h ((feed_url_stream_frame ops inst u rc hs te td).2.2.2.2 _ hk)
      · exact h
  | start_download this d =>
    cases hp : p.heap[this]? with
    | none => simp [Process.call, hp] at hcall
    | some inst =>
      simp [Process.call, hp] at hcall
      obtain ⟨rfl, rfl⟩ := hcall
      have hne : ¬ this = a := by simpa [Call.isStartDownloadOn] using hc
      rw [registry_after_set p _ this a inst _ hp rfl, if_neg hne]
      exact h

/-- A call never removes an instance from the heap. -/
theorem call_keeps_instance {S : Type} (ops : DownloadOps S) (p p' : Process S)
    (c : Call S) (r : Ret S) (a : Nat)
    (hcall : Process.call ops p c = some (r, p')) (h : a < p.heap.length) :
    a < p'.heap.length := by
  cases c with
  | construct tokens =>
    simp [Process.call, construct] at hcall
    obtain ⟨rfl, rfl⟩ := hcall
    simp
    omega
  | has_request this =>
    cases hp : p.heap[this]? <;> simp [Process.call, hp] at hcall
    obtain ⟨rfl, rfl⟩ := hcall
    simpa using h
  | get_request this =>
    cases hp : p.heap[this]? <;> simp [Process.call, hp] at hcall
    obtain ⟨rfl, rfl⟩ := hcall
    simpa using h
  | add_request this request =>
    cases hp : p.heap[this]? <;> simp [Process.call, hp] at hcall
    obtain ⟨rfl, rfl⟩ := hcall
    simpa using h
  | finish_request this request handled =>
    cases hp : p.heap[this]? <;> simp [Process.call, hp] at hcall
    obtain ⟨rfl, rfl⟩ := hcall
    simpa using h
  | feed_url_stream this u rc hs te td =>
    cases hp : p.heap[this]? <;> simp [Process.call, hp] at hcall
    obtain ⟨rfl, rfl⟩ := hcall
    simpa using h
  | start_download this d =>
    cases hp : p.heap[this]? <;> simp [Process.call, hp] at hcall
    obtain ⟨rfl, rfl⟩ := hcall
    simpa using h

/-- Along a run without `start_download` on the instance at `a`, the instance
stays on the heap and an unregistered id stays unregistered. -/
theorem run_keeps_unregistered {S : Type} (ops : DownloadOps S) (a : Nat) (unique_id : Int)
    (cs : List (Call S)) (hcs : ∀ c ∈ cs, Call.isStartDownloadOn a c = false) :
    ∀ (p p' : Process S) (rs : List (Ret S)), Process.run ops p cs = some (rs, p') →
      a < p.heap.length → Downloads.find unique_id (p.registry a) = none →
      a < p'.heap.length ∧ Downloads.find unique_id (p'.registry a) = none := by
  induction cs with
  | nil =>
    intro p p' rs hrun hlt h
    simp [Process.run] at hrun
    obtain ⟨rfl, rfl⟩ := hrun
    exact ⟨hlt, h⟩
  | cons c cs ih =>
    intro p p' rs hrun hlt h
    unfold Process.run at hrun
    cases hcall : Process.call ops p c with
    | none => simp [hcall] at hrun
    | some rp =>
      obtain ⟨r, p1⟩ := rp
      simp only [hcall] at hrun
      by_cases hab : r.aborted = true
      · simp [hab] at hrun
      · simp only [hab] at hrun
        cases hrest : Process.run ops p1 cs with
        | none => simp [hrest] at hrun
        | some rsp =>
          obtain ⟨rs', p2⟩ := rsp
          simp [hrest] at hrun
          obtain ⟨rfl, rfl⟩ := hrun
          exact ih (fun c' hc' => hcs c' (List.mem_cons_of_mem c hc')) p1 p2 rs' hrest
            (call_keeps_instance ops p p1 c r a hcall hlt)
            (call_keeps_unregistered ops p p1 c r a unique_id
              (hcs c (List.mem_cons_self c cs)) hcall h)

/-- On the process, a chunk for an id that is not registered is refused and
nothing changes. -/
theorem call_feed_unknown {S : Type} (ops : DownloadOps S) (p : Process S) (a : Nat)
    (inst : P3DInstance S) (unique_id : Int) (rc : P3D_result_code) (hs : Int) (te : Nat)
    (td : List Nat) (hinst : p.heap[a]? = some inst)
    (h : Downloads.find unique_id inst._downloads = none) :
    Process.call ops p (Call.feed_url_stream a unique_id rc hs te td) =
      some (Ret.bool false, p) := by
  simp [Process.call, hinst, feed_url_stream_unknown ops inst unique_id rc hs te td h,
    heap_set_same _ _ _ hinst]

/-! ## Lemmas on `start_download` on the process -/

theorem queue_of_some {S : Type} (p : Process S) (a : Nat) (inst : P3DInstance S)
    (h : p.heap[a]? = some inst) : p.queue a = inst._pending_requests := by
  simp [Process.queue, h]

/-- On the process, `start_download` of an unregistered download under a free
counter value returns and yields the started instance and the next counter. -/
theorem call_start_download_ok {S : Type} (ops : DownloadOps S) (p : Process S) (a : Nat)
    (inst : P3DInstance S) (d : P3DDownload S) (hinst : p.heap[a]? = some inst)
    (hid : d._download_id = 0)
    (hfree : Downloads.find p._next_instance_id inst._downloads = none) :
    Process.call ops p (Call.start_download a d) =
      some (Ret.download Outcome.returned (d.set_download_id p._next_instance_id),
        { _next_instance_id := p._next_instance_id + 1
          heap := p.heap.set a (started a p._next_instance_id inst d) }) := by
  simp [Process.call, hinst, start_download_ok a _ inst d hid hfree, started]

/-- On the process, `start_download` of a download that carries an id fails
its first assertion and changes nothing. -/
theorem call_start_download_reject {S : Type} (ops : DownloadOps S) (p : Process S) (a : Nat)
    (inst : P3DInstance S) (d : P3DDownload S) (hinst : p.heap[a]? = some inst)
    (hid : d._download_id ≠ 0) :
    Process.call ops p (Call.start_download a d) =
      some (Ret.download (Outcome.assert_failed download_id_assertion) d, p) := by
  simp [Process.call, hinst, start_download_reject a _ inst d hid, heap_set_same _ _ _ hinst]

/-- In a state that satisfies the invariant, the counter value is not a key of
any registry, and it is at least 1 once an instance exists. -/
theorem inv_counter_free {S : Type} (p : Process S) (a : Nat) (inst : P3DInstance S)
    (hinv : p.Inv) (hinst : p.heap[a]? = some inst) :
    Downloads.find p._next_instance_id inst._downloads = none ∧ 1 ≤ p._next_instance_id := by
  constructor
  · rw [find_none_iff_not_key]
    intro hk
    have := hinv.2 inst (List.getElem?_mem hinst) _ hk
    omega
  · have hlt : a < p.heap.length := (List.getElem?_eq_some.1 hinst).1
    have := hinv.1
    omega

theorem c_str_of_no_nul (s : String) (h : Char.ofNat 0 ∉ s.data) : c_str s = s := by
  have : s.data.takeWhile (fun c => decide (c ≠ Char.ofNat 0)) = s.data := by
    rw [List.takeWhile_eq_self_iff]
    intro c hc
    simp only [decide_eq_true_eq]
    intro e
    exact h (e ▸ hc)
  unfold c_str
  rw [this]

theorem assertions_differ :
    download_id_assertion ≠ inserted_assertion ∧
      download_id_assertion ≠ add_request_assertion ∧
      inserted_assertion ≠ add_request_assertion := by
  decide

/-! ## Lemmas on the tokens -/

theorem fill_tokens_eq (tokens : List P3D_token) :
    ∀ acc : List Token, fill_tokens tokens acc = acc ++ tokens.map stored_token := by
  induction tokens with
  | nil => intro acc; simp [fill_tokens]
  | cons t rest ih =>
    intro acc
    unfold fill_tokens
    rw [ih]
    cases hk : t._keyword <;> cases hv : t._value <;> simp [stored_token, hk, hv]

theorem lookup_token_first (pre post : List Token) (t : Token) (keyword : String)
    (hpre : ∀ x ∈ pre, x._keyword ≠ keyword) (ht : t._keyword = keyword) :
    lookup_token (pre ++ t :: post) keyword = t._value := by
  induction pre with
  | nil => simp [lookup_token, ht]
  | cons x xs ih =>
    have hx : x._keyword ≠ keyword := hpre x (List.mem_cons_self x xs)
    simp only [List.cons_append, lookup_token, if_neg hx]
    exact ih (fun y hy => hpre y (List.mem_cons_of_mem x hy))

theorem lookup_token_absent (tokens : List Token) (keyword : String)
    (h : ∀ x ∈ tokens, x._keyword ≠ keyword) : lookup_token tokens keyword = "" := by
  induction tokens with
  | nil => rfl
  | cons x xs ih =>
    have hx : x._keyword ≠ keyword := h x (List.mem_cons_self x xs)
    simp only [lookup_token, if_neg hx]
    exact ih (fun y hy => h y (List.mem_cons_of_mem x hy))

theorem lookup_token_find (tokens : List Token) (keyword : String) :
    lookup_token tokens keyword =
      ((tokens.find? (fun t => decide (t._keyword = keyword))).map (fun t => t._value)).getD "" := by
  induction tokens with
  | nil => rfl
  | cons x xs ih =>
    by_cases hx : x._keyword = keyword
    · simp [lookup_token, hx]
    · simp [lookup_token, hx, List.find?_cons, ih]

/-! ## Lemmas on the frame of a call -/

theorem queue_after_set {S : Type} (p q : Process S) (this a : Nat) (inst x : P3DInstance S)
    (hp : p.heap[this]? = some inst) (hq : q.heap = p.heap.set this x) :
    q.queue a = if this = a then x._pending_requests else p.queue a := by
  by_cases h : this = a
  · subst h
    have : q.heap[this]? = some x := by rw [hq]; exact heap_get_set_same _ _ _ _ hp
    simp [Process.queue, this]
  · have : q.heap[a]? = p.heap[a]? := by rw [hq]; exact heap_get_set_other _ _ _ _ h
    simp [Process.queue, this, h]

theorem erase_erase_same {S : Type} (k : Int) (m : Downloads S) :
    Downloads.erase k (Downloads.erase k m) = Downloads.erase k m := by
  simp [Downloads.erase, List.filter_filter]

theorem erase_writeBack {S : Type} (k : Int) (d : P3DDownload S) (m : Downloads S) :
    Downloads.erase k (Downloads.writeBack k d m) = Downloads.erase k m := by
  induction m with
  | nil => rfl
  | cons e rest ih =>
    obtain ⟨k', d'⟩ := e
    rw [writeBack_cons]
    by_cases h : k' = k
    · rw [if_pos h, erase_cons, erase_cons, if_pos h, if_pos h]; exact ih
    · rw [if_neg h, erase_cons, erase_cons, if_neg h, if_neg h, ih]

/-- The entries of the registry under the other ids are the same before and
after `feed_url_stream`. -/
theorem feed_url_stream_others {S : Type} (ops : DownloadOps S) (inst : P3DInstance S)
    (unique_id : Int) (rc : P3D_result_code) (hs : Int) (te : Nat) (td : List Nat) :
    Downloads.erase unique_id (feed_url_stream ops inst unique_id rc hs te td).2._downloads =
      Downloads.erase unique_id inst._downloads := by
  unfold feed_url_stream
  cases h : Downloads.find unique_id inst._downloads with
  | none => simp
  | some d =>
    simp only []
    split
    · exact erase_erase_same _ _
    · exact erase_writeBack _ _ _

/-- On the process, `feed_url_stream` on an instance gives the method's result
and puts the method's instance back at its address. -/
theorem call_feed_eq {S : Type} (ops : DownloadOps S) (p : Process S) (a : Nat)
    (inst : P3DInstance S) (unique_id : Int) (rc : P3D_result_code) (hs : Int) (te : Nat)
    (td : List Nat) (hinst : p.heap[a]? = some inst) :
    Process.call ops p (Call.feed_url_stream a unique_id rc hs te td) =
      some (Ret.bool (feed_url_stream ops inst unique_id rc hs te td).1,
        p.fed ops a inst unique_id rc hs te td) := by
  simp only [Process.call, hinst, Process.fed]

/-- A queue call leaves the counter and every registry as they were. -/
theorem call_queue_op_frame {S : Type} (ops : DownloadOps S) (p p' : Process S) (c : Call S)
    (r : Ret S) (hc : Call.isQueueOp c = true)
    (hcall : Process.call ops p c = some (r, p')) :
    p'._next_instance_id = p._next_instance_id ∧ ∀ b, p'.registry b = p.registry b := by
  cases c with
  | construct tokens => simp [Call.isQueueOp] at hc
  | feed_url_stream this u rc hs te td => simp [Call.isQueueOp] at hc
  | start_download this d => simp [Call.isQueueOp] at hc
  | has_request this =>
    cases hp : p.heap[this]? with
    | none => simp [Process.call, hp] at hcall
    | some inst =>
      simp [Process.call, hp] at hcall
      obtain ⟨rfl, rfl⟩ := hcall
      refine ⟨rfl, fun b => ?_⟩
      rw [registry_after_set p _ this b inst _ hp rfl]
      split
      · rename_i e; subst e; simp [has_request, registry_of_some p this inst hp]
      · rfl
  | get_request this =>
    cases hp : p.heap[this]? with
    | none => simp [Process.call, hp] at hcall
    | some inst =>
      simp [Process.call, hp] at hcall
      obtain ⟨rfl, rfl⟩ := hcall
      refine ⟨rfl, fun b => ?_⟩
      rw [registry_after_set p _ this b inst _ hp rfl]
      split
      · rename_i e; subst e
        rw [registry_of_some p this inst hp]
        unfold get_request
        split <;> rfl
      · rfl
  | add_request this request =>
    cases hp : p.heap[this]? with
    | none => simp [Process.call, hp] at hcall
    | some inst =>
      simp [Process.call, hp] at hcall
      obtain ⟨rfl, rfl⟩ := hcall
      refine ⟨rfl, fun b => ?_⟩
      rw [registry_after_set p _ this b inst _ hp rfl]
      split
      · rename_i e; subst e
        rw [registry_of_some p this inst hp]
        unfold add_request
        split <;> rfl
      · rfl
  | finish_request this request handled =>
    cases hp : p.heap[this]? with
    | none => simp [Process.call, hp] at hcall
    | some inst =>
      simp [Process.call, hp] at hcall
      obtain ⟨rfl, rfl⟩ := hcall
      refine ⟨rfl, fun b => ?_⟩
      rw [registry_after_set p _ this b inst _ hp rfl]
      split
      · rename_i e; subst e
        rw [registry_of_some p this inst hp]
        unfold finish_request
        split <;> rfl
      · rfl

/-- On the process, a chunk fed under a registered id returns what the
download's ingestion returns. -/
theorem call_feed_registered {S : Type} (ops : DownloadOps S) (p : Process S)
    (a : Nat) (inst : P3DInstance S) (unique_id : Int) (d : P3DDownload S)
    (rc : P3D_result_code) (hs : Int) (te : Nat) (td : List Nat)
    (hinst : p.heap[a]? = some inst)
    (hreg : Downloads.find unique_id inst._downloads = some d) :
    ∃ p', Process.call ops p (Call.feed_url_stream a unique_id rc hs te td) =
      some (Ret.bool (ops.feed_url_stream d._state rc hs te td).1, p') := by
  have h1 : (feed_url_stream ops inst unique_id rc hs te td).1 =
      (ops.feed_url_stream d._state rc hs te td).1 := by
    unfold feed_url_stream
    simp only [hreg]
    split <;> rfl
  rw [call_feed_eq ops p a inst unique_id rc hs te td hinst, h1]
  exact ⟨_, rfl⟩

/-! ## The shapes of a call that returns -/

/-- A call that returns is a construction, a queue call that puts back an
instance with the same id, tokens and registry, a `feed_url_stream`, or a
`start_download` of a download without an id under a free counter value. -/
theorem step_effect {S : Type} (ops : DownloadOps S) (p p' : Process S) (c : Call S) (r : Ret S)
    (hcall : Process.call ops p c = some (r, p')) (hret : r.aborted = false) :
    (∃ tokens, c = Call.construct tokens ∧ r = Ret.pointer p.heap.length ∧
      p' = (construct p tokens).2) ∨
    (∃ this inst inst', Call.isQueueOp c = true ∧ p.heap[this]? = some inst ∧
      p' = p.withInstance this inst' ∧ inst'._instance_id = inst._instance_id ∧
      inst'._tokens = inst._tokens ∧ inst'._downloads = inst._downloads) ∨
    (∃ this inst unique_id rc hs te td, c = Call.feed_url_stream this unique_id rc hs te td ∧
      p.heap[this]? = some inst ∧
      r = Ret.bool (feed_url_stream ops inst unique_id rc hs te td).1 ∧
      p' = p.fed ops this inst unique_id rc hs te td) ∨
    (∃ this inst d, c = Call.start_download this d ∧ p.heap[this]? = some inst ∧
      d._download_id = 0 ∧ Downloads.find p._next_instance_id inst._downloads = none ∧
      r = Ret.download Outcome.returned (d.set_download_id p._next_instance_id) ∧
      p' = p.afterStart this inst d) := by
  cases c with
  | construct tokens =>
    simp [Process.call] at hcall
    obtain ⟨rfl, rfl⟩ := hcall
    exact Or.inl ⟨tokens, rfl, rfl, rfl⟩
  | has_request this =>
    cases hp : p.heap[this]? with
    | none => simp [Process.call, hp] at hcall
    | some inst =>
      simp [Process.call, hp] at hcall
      obtain ⟨rfl, rfl⟩ := hcall
      exact Or.inr (Or.inl ⟨this, inst, _, rfl, hp, rfl, rfl, rfl, rfl⟩)
  | get_request this =>
    cases hp : p.heap[this]? with
    | none => simp [Process.call, hp] at hcall
    | some inst =>
      simp [Process.call, hp] at hcall
      obtain ⟨rfl, rfl⟩ := hcall
      refine Or.inr (Or.inl ⟨this, inst, _, rfl, hp, rfl, ?_, ?_, ?_⟩) <;>
        (unfold get_request; split <;> rfl)
  | add_request this request =>
    cases hp : p.heap[this]? with
    | none => simp [Process.call, hp] at hcall
    | some inst =>
      simp [Process.call, hp] at hcall
      obtain ⟨rfl, rfl⟩ := hcall
      refine Or.inr (Or.inl ⟨this, inst, _, rfl, hp, rfl, ?_, ?_, ?_⟩) <;>
        (unfold add_request; split <;> rfl)
  | finish_request this request handled =>
    cases hp : p.heap[this]? with
    | none => simp [Process.call, hp] at hcall
    | some inst =>
      simp [Process.call, hp] at hcall
      obtain ⟨rfl, rfl⟩ := hcall
      refine Or.inr (Or.inl ⟨this, inst, _, rfl, hp, rfl, ?_, ?_, ?_⟩) <;>
        (unfold finish_request; split <;> rfl)
  | feed_url_stream this u rc hs te td =>
    cases hp : p.heap[this]? with
    | none => simp [Process.call, hp] at hcall
    | some inst =>
      rw [call_feed_eq ops p this inst u rc hs te td hp] at hcall
      simp only [Option.some.injEq, Prod.mk.injEq] at hcall
      obtain ⟨rfl, rfl⟩ := hcall
      exact Or.inr (Or.inr (Or.inl ⟨this, inst, u, rc, hs, te, td, rfl, hp, rfl, rfl⟩))
  | start_download this d =>
    cases hp : p.heap[this]? with
    | none => simp [Process.call, hp] at hcall
    | some inst =>
      by_cases hid : d._download_id = 0
      · cases hfind : Downloads.find p._next_instance_id inst._downloads with
        | none =>
          rw [call_start_download_ok ops p this inst d hp hid hfind] at hcall
          simp only [Option.some.injEq, Prod.mk.injEq] at hcall
          obtain ⟨rfl, rfl⟩ := hcall
          exact Or.inr (Or.inr (Or.inr ⟨this, inst, d, rfl, hp, hid, hfind, rfl, rfl⟩))
        | some d0 =>
          simp [Process.call, hp, start_download_collide this _ inst d d0 hid hfind] at hcall
          obtain ⟨rfl, rfl⟩ := hcall
          simp [Ret.aborted] at hret
      · rw [call_start_download_reject ops p this inst d hp hid] at hcall
        simp only [Option.some.injEq, Prod.mk.injEq] at hcall
        obtain ⟨rfl, rfl⟩ := hcall
        simp [Ret.aborted] at hret

/-- A property of the process that every returning call keeps holds at the
end of every run that starts where it holds. -/
theorem run_preserves {S : Type} (ops : DownloadOps S) (I : Process S → Prop)
    (hstep : ∀ (p p' : Process S) (c : Call S) (r : Ret S), I p →
      Process.call ops p c = some (r, p') → r.aborted = false → I p')
    (cs : List (Call S)) :
    ∀ (p p' : Process S) (rs : List (Ret S)), I p → Process.run ops p cs = some (rs, p') →
      I p' := by
  induction cs with
  | nil =>
    intro p p' rs hI hrun
    simp [Process.run] at hrun
    obtain ⟨rfl, rfl⟩ := hrun
    exact hI
  | cons c cs ih =>
    intro p p' rs hI hrun
    unfold Process.run at hrun
    cases hcall : Process.call ops p c with
    | none => simp [hcall] at hrun
    | some rp =>
      obtain ⟨r, p1⟩ := rp
      simp only [hcall] at hrun
      by_cases hab : r.aborted = true
      · simp [hab] at hrun
      · simp only [hab] at hrun
        cases hrest : Process.run ops p1 cs with
        | none => simp [hrest] at hrun
        | some rsp =>
          obtain ⟨rs', p2⟩ := rsp
          simp [hrest] at hrun
          obtain ⟨rfl, rfl⟩ := hrun
          exact ih p1 p2 rs' (hstep p p1 c r hI hcall (by simpa using hab)) hrest

/-! ## Lemmas on the entries of the registry -/

theorem find_some_mem {S : Type} (k : Int) (d : P3DDownload S) (m : Downloads S)
    (h : Downloads.find k m = some d) : (k, d) ∈ m := by
  induction m with
  | nil => simp [Downloads.find] at h
  | cons e rest ih =>
    obtain ⟨k', d'⟩ := e
    rw [find_cons] at h
    by_cases hk : k' = k
    · rw [if_pos hk] at h
      simp only [Option.some.injEq] at h
      subst hk; subst h
      exact List.mem_cons_self _ _
    · rw [if_neg hk] at h
      exact List.mem_cons_of_mem _ (ih h)

theorem mem_orderedInsert {S : Type} (k : Int) (d : P3DDownload S) (m : Downloads S)
    (e : Int × P3DDownload S) :
    e ∈ Downloads.orderedInsert k d m ↔ e = (k, d) ∨ e ∈ m := by
  induction m with
  | nil => simp [Downloads.orderedInsert]
  | cons x rest ih =>
    obtain ⟨k', d'⟩ := x
    rw [orderedInsert_cons]
    by_cases h : k < k'
    · rw [if_pos h]; simp
    · rw [if_neg h]
      simp only [List.mem_cons, ih]
      tauto

theorem mem_erase {S : Type} (k : Int) (m : Downloads S) (e : Int × P3DDownload S) :
    e ∈ Downloads.erase k m ↔ e ∈ m ∧ e.1 ≠ k := by
  simp [Downloads.erase, List.mem_filter]

theorem mem_writeBack {S : Type} (k : Int) (d : P3DDownload S) (m : Downloads S)
    (e : Int × P3DDownload S) :
    e ∈ Downloads.writeBack k d m ↔
      (e ∈ m ∧ e.1 ≠ k) ∨ (e = (k, d) ∧ k ∈ Downloads.keys m) := by
  induction m with
  | nil => simp [Downloads.writeBack, Downloads.keys]
  | cons x rest ih =>
    obtain ⟨k', d'⟩ := x
    rw [writeBack_cons]
    have hkeys : ∀ j, j ∈ Downloads.keys ((k', d') :: rest) ↔ j = k' ∨ j ∈ Downloads.keys rest := by
      intro j
      simp [Downloads.keys]
    by_cases h : k' = k
    · subst h
      rw [if_pos rfl, List.mem_cons, List.mem_cons, ih, hkeys]
      constructor
      · rintro (h1 | h1 | h1)
        · exact Or.inr ⟨h1, Or.inl rfl⟩
        · exact Or.inl ⟨Or.inr h1.1, h1.2⟩
        · exact Or.inr ⟨h1.1, Or.inr h1.2⟩
      · rintro (⟨h1 | h1, h2⟩ | ⟨h1, _⟩)
        · exact absurd (by rw [h1]) h2
        · exact Or.inr (Or.inl ⟨h1, h2⟩)
        · exact Or.inl h1
    · rw [if_neg h, List.mem_cons, List.mem_cons, ih, hkeys]
      constructor
      · rintro (h1 | h1 | h1)
        · exact Or.inl ⟨Or.inl h1, by rw [h1]; exact h⟩
        · exact Or.inl ⟨Or.inr h1.1, h1.2⟩
        · exact Or.inr ⟨h1.1, Or.inr h1.2⟩
      · rintro (⟨h1 | h1, h2⟩ | ⟨h1, h2 | h2⟩)
        · exact Or.inl h1
        · exact Or.inr (Or.inl ⟨h1, h2⟩)
        · exact absurd h2.symm h
        · exact Or.inr (Or.inr ⟨h1, h2⟩)

/-- The entries of the registry after `feed_url_stream`: with an unknown id
the old ones; after a terminal chunk the old ones under the other ids; after
a healthy chunk those and the fed download with its stream state advanced. -/
theorem feed_url_stream_entries {S : Type} (ops : DownloadOps S) (inst : P3DInstance S)
    (unique_id : Int) (rc : P3D_result_code) (hs : Int) (te : Nat) (td : List Nat)
    (e : Int × P3DDownload S) :
    e ∈ (feed_url_stream ops inst unique_id rc hs te td).2._downloads ↔
      (Downloads.find unique_id inst._downloads = none ∧ e ∈ inst._downloads) ∨
      (∃ d, Downloads.find unique_id inst._downloads = some d ∧
        ((e ∈ inst._downloads ∧ e.1 ≠ unique_id) ∨
          (e = (unique_id, { d with _state := (ops.feed_url_stream d._state rc hs te td).2 }) ∧
            (ops.feed_url_stream d._state rc hs te td).1 = true ∧
            ops.get_download_finished (ops.feed_url_stream d._state rc hs te td).2 = false))) := by
  cases h : Downloads.find unique_id inst._downloads with
  | none =>
    rw [feed_url_stream_unknown ops inst unique_id rc hs te td h]
    simp
  | some d =>
    have hkey : unique_id ∈ Downloads.keys inst._downloads := by
      by_contra hk
      rw [(find_none_iff_not_key _ _).2 hk] at h
      exact absurd h (by simp)
    by_cases hterm : (ops.feed_url_stream d._state rc hs te td).1 = false ∨
        ops.get_download_finished (ops.feed_url_stream d._state rc hs te td).2 = true
    · rw [feed_url_stream_retire ops inst unique_id d rc hs te td h hterm]
      constructor
      · intro h1
        exact Or.inr ⟨d, rfl, Or.inl ((mem_erase _ _ _).1 h1)⟩
      · rintro (⟨h0, _⟩ | ⟨d', hd', h2⟩)
        · exact absurd h0 (by simp)
        · simp only [Option.some.injEq] at hd'
          subst hd'
          rcases h2 with h2 | ⟨_, h3, h4⟩
          · exact (mem_erase _ _ _).2 h2
          · rcases hterm with h5 | h5
            · rw [h5] at h3; exact absurd h3 (by simp)
            · rw [h5] at h4; exact absurd h4 (by simp)
    · have hok : (ops.feed_url_stream d._state rc hs te td).1 = true := by
        cases hv : (ops.feed_url_stream d._state rc hs te td).1
        · exact absurd (Or.inl hv) hterm
        · rfl
      have hnot : ops.get_download_finished (ops.feed_url_stream d._state rc hs te td).2
          = false := by
        cases hv : ops.get_download_finished (ops.feed_url_stream d._state rc hs te td).2
        · rfl
        · exact absurd (Or.inr hv) hterm
      rw [feed_url_stream_keep ops inst unique_id d rc hs te td h hok hnot]
      constructor
      · intro h1
        rcases (mem_writeBack _ _ _ _).1 h1 with h2 | ⟨h2, _⟩
        · exact Or.inr ⟨d, rfl, Or.inl h2⟩
        · exact Or.inr ⟨d, rfl, Or.inr ⟨h2, hok, hnot⟩⟩
      · rintro (⟨h0, _⟩ | ⟨d', hd', h2⟩)
        · exact absurd h0 (by simp)
        · simp only [Option.some.injEq] at hd'
          subst hd'
          rcases h2 with h2 | ⟨h2, _, _⟩
          · exact (mem_writeBack _ _ _ _).2 (Or.inl h2)
          · exact (mem_writeBack _ _ _ _).2 (Or.inr ⟨h2, hkey⟩)

/-! ## The invariant of the registry entries -/

/-- Every returning call keeps the counter invariant and the entries
invariant together. -/
theorem step_entries_inv {S : Type} (ops : DownloadOps S) (p p' : Process S) (c : Call S)
    (r : Ret S) (hI : p.Inv ∧ p.EntriesInv)
    (hcall : Process.call ops p c = some (r, p')) (hret : r.aborted = false) :
    p'.Inv ∧ p'.EntriesInv := by
  refine ⟨(call_inv ops p p' c r hI.1 hcall).1, ?_⟩
  obtain ⟨hinv, hent⟩ := hI
  rcases step_effect ops p p' c r hcall hret with
    ⟨tokens, _, _, rfl⟩ | ⟨this, inst, inst', _, hp, rfl, _, _, hd⟩ |
    ⟨this, inst, u, rc, hs, te, td, _, hp, _, rfl⟩ | ⟨this, inst, d, _, hp, hid, hfree, _, rfl⟩
  · intro i hi e he
    simp only [construct, List.mem_append, List.mem_singleton] at hi
    rcases hi with hi | rfl
    · obtain ⟨h1, h2, h3⟩ := hent i hi e he
      refine ⟨h1, h2, ?_⟩
      simp only [construct]
      omega
    · simp at he
  · intro i hi e he
    rcases List.mem_or_eq_of_mem_set hi with hi | rfl
    · exact hent i hi e he
    · rw [hd] at he
      exact hent inst (List.getElem?_mem hp) e he
  · intro i hi e he
    rcases List.mem_or_eq_of_mem_set hi with hi | rfl
    · exact hent i hi e he
    · rcases (feed_url_stream_entries ops inst u rc hs te td e).1 he with
        ⟨_, h1⟩ | ⟨d, hd, h1 | ⟨rfl, _, _⟩⟩
      · exact hent inst (List.getElem?_mem hp) e h1
      · exact hent inst (List.getElem?_mem hp) e h1.1
      · exact hent inst (List.getElem?_mem hp) (u, d) (find_some_mem u d _ hd)
  · intro i hi e he
    obtain ⟨_, hpos⟩ := inv_counter_free p this inst hinv hp
    rcases List.mem_or_eq_of_mem_set hi with hi | rfl
    · obtain ⟨h1, h2, h3⟩ := hent i hi e he
      refine ⟨h1, h2, ?_⟩
      simp only [Process.afterStart]
      omega
    · rcases (mem_orderedInsert _ _ _ e).1 he with rfl | he
      · refine ⟨rfl, hpos, ?_⟩
        simp only [Process.afterStart]
        omega
      · obtain ⟨h1, h2, h3⟩ := hent inst (List.getElem?_mem hp) e he
        refine ⟨h1, h2, ?_⟩
        simp only [Process.afterStart]
        omega

theorem fresh_entries_inv {S : Type} : (Process.fresh : Process S).EntriesInv := by
  intro inst hinst
  simp [Process.fresh] at hinst

/-- Both invariants hold in every state reached by a run from the fresh
process. -/
theorem reachable_entries_inv {S : Type} (ops : DownloadOps S) (cs : List (Call S))
    (rs : List (Ret S)) (p : Process S)
    (hrun : Process.run ops Process.fresh cs = some (rs, p)) : p.Inv ∧ p.EntriesInv :=
  run_preserves ops (fun q => q.Inv ∧ q.EntriesInv) (step_entries_inv ops) cs Process.fresh p rs
    ⟨fresh_inv, fresh_entries_inv⟩ hrun

/-! ## Runs with a history -/

/-- A property of the process and the history that every returning call keeps
holds at the end of every run with history that starts where it holds. -/
theorem runWith_preserves {S G : Type} (ops : DownloadOps S)
    (track : Process S → Call S → Ret S → Process S → G → G)
    (C : Call S → Prop) (I : Process S → G → Prop)
    (hstep : ∀ (p p' : Process S) (g : G) (c : Call S) (r : Ret S), C c → I p g →
      Process.call ops p c = some (r, p') → r.aborted = false → I p' (track p c r p' g))
    (cs : List (Call S)) (hcs : ∀ c ∈ cs, C c) :
    ∀ (p p' : Process S) (g g' : G), I p g →
      Process.runWith ops track p g cs = some (p', g') → I p' g' := by
  induction cs with
  | nil =>
    intro p p' g g' hI hrun
    simp [Process.runWith] at hrun
    obtain ⟨rfl, rfl⟩ := hrun
    exact hI
  | cons c cs ih =>
    intro p p' g g' hI hrun
    unfold Process.runWith at hrun
    cases hcall : Process.call ops p c with
    | none => simp [hcall] at hrun
    | some rp =>
      obtain ⟨r, p1⟩ := rp
      simp only [hcall] at hrun
      by_cases hab : r.aborted = true
      · simp [hab] at hrun
      · simp only [hab] at hrun
        exact ih (fun c' hc' => hcs c' (List.mem_cons_of_mem c hc')) p1 p' _ g'
          (hstep p p1 g c r (hcs c (List.mem_cons_self c cs)) hI hcall (by simpa using hab))
          hrun

/-- A run with history ends in a state that the plain run reaches. -/
theorem runWith_run {S G : Type} (ops : DownloadOps S)
    (track : Process S → Call S → Ret S → Process S → G → G) (cs : List (Call S)) :
    ∀ (p p' : Process S) (g g' : G), Process.runWith ops track p g cs = some (p', g') →
      ∃ rs, Process.run ops p cs = some (rs, p') := by
  induction cs with
  | nil =>
    intro p p' g g' hrun
    simp [Process.runWith] at hrun
    exact ⟨[], by simp [Process.run, hrun.1]⟩
  | cons c cs ih =>
    intro p p' g g' hrun
    unfold Process.runWith at hrun
    cases hcall : Process.call ops p c with
    | none => simp [hcall] at hrun
    | some rp =>
      obtain ⟨r, p1⟩ := rp
      simp only [hcall] at hrun
      by_cases hab : r.aborted = true
      · simp [hab] at hrun
      · simp only [hab] at hrun
        obtain ⟨rs, hrs⟩ := ih p1 p' _ g' hrun
        refine ⟨r :: rs, ?_⟩
        unfold Process.run
        simp [hcall, hab, hrs]

/-- A plain run can be followed with any history. -/
theorem run_runWith {S G : Type} (ops : DownloadOps S)
    (track : Process S → Call S → Ret S → Process S → G → G) (cs : List (Call S)) :
    ∀ (p p' : Process S) (rs : List (Ret S)) (g : G), Process.run ops p cs = some (rs, p') →
      ∃ g', Process.runWith ops track p g cs = some (p', g') := by
  induction cs with
  | nil =>
    intro p p' rs g hrun
    simp [Process.run] at hrun
    exact ⟨g, by simp [Process.runWith, hrun.2]⟩
  | cons c cs ih =>
    intro p p' rs g hrun
    unfold Process.run at hrun
    cases hcall : Process.call ops p c with
    | none => simp [hcall] at hrun
    | some rp =>
      obtain ⟨r, p1⟩ := rp
      simp only [hcall] at hrun
      by_cases hab : r.aborted = true
      · simp [hab] at hrun
      · simp only [hab] at hrun
        cases hrest : Process.run ops p1 cs with
        | none => simp [hrest] at hrun
        | some rsp =>
          obtain ⟨rs', p2⟩ := rsp
          simp [hrest] at hrun
          obtain ⟨_, rfl⟩ := hrun
          obtain ⟨g', hg'⟩ := ih p1 p2 rs' (track p c r p1 g) hrest
          refine ⟨g', ?_⟩
          unfold Process.runWith
          simp [hcall, hab, hg']

theorem trackStarted_queue_op {S : Type} (ops : DownloadOps S) (p p' : Process S) (c : Call S)
    (r : Ret S) (log : List (Started S)) (hc : Call.isQueueOp c = true) :
    trackStarted ops p c r p' log = log := by
  cases c <;> simp [Call.isQueueOp] at hc <;> rfl

theorem trackIds_queue_op {S : Type} (p p' : Process S) (c : Call S)
    (r : Ret S) (log : List (IdKind × Int)) (hc : Call.isQueueOp c = true) :
    trackIds p c r p' log = log := by
  cases c <;> simp [Call.isQueueOp] at hc <;> rfl

/-! ## The invariant of the history of ids -/

theorem ids_snoc (log : List (IdKind × Int)) (kind : IdKind) (next : Int)
    (h1 : log.map Prod.snd = (List.range log.length).map Int.ofNat)
    (h2 : next = (log.length : Int)) :
    (log ++ [(kind, next)]).map Prod.snd =
      (List.range (log ++ [(kind, next)]).length).map Int.ofNat := by
  simp only [List.map_append, List.length_append, List.length_singleton, List.range_succ,
    List.map_cons, List.map_nil, h1, h2]
  rfl

/-- Every returning call keeps the invariant of the history of ids. -/
theorem step_ids_inv {S : Type} (ops : DownloadOps S) (p p' : Process S)
    (log : List (IdKind × Int)) (c : Call S) (r : Ret S) (hI : IdsInv p log)
    (hcall : Process.call ops p c = some (r, p')) (hret : r.aborted = false) :
    IdsInv p' (trackIds p c r p' log) := by
  obtain ⟨hseq, hnext, hinst, hent⟩ := hI
  rcases step_effect ops p p' c r hcall hret with
    ⟨tokens, rfl, rfl, rfl⟩ | ⟨this, inst, inst', hq, hp, rfl, hid, _, hd⟩ |
    ⟨this, inst, u, rc, hs, te, td, rfl, hp, rfl, rfl⟩ |
    ⟨this, inst, d, rfl, hp, hid, hfree, rfl, rfl⟩
  · have htrack : trackIds p (Call.construct tokens) (Ret.pointer p.heap.length)
        (construct p tokens).2 log = log ++ [(IdKind.instance_id, p._next_instance_id)] := by
      simp [trackIds, construct]
    rw [htrack]
    refine ⟨ids_snoc log _ _ hseq hnext, ?_, ?_, ?_⟩
    · simp only [construct, List.length_append, List.length_singleton, hnext]
      push_cast
      rfl
    · intro i hi
      simp only [construct, List.mem_append, List.mem_singleton] at hi
      rcases hi with hi | rfl
      · exact List.mem_append_left _ (hinst i hi)
      · simp
    · intro i hi e he
      simp only [construct, List.mem_append, List.mem_singleton] at hi
      rcases hi with hi | rfl
      · exact List.mem_append_left _ (hent i hi e he)
      · simp at he
  · rw [trackIds_queue_op p _ c r log hq]
    refine ⟨hseq, hnext, ?_, ?_⟩
    · intro i hi
      rcases List.mem_or_eq_of_mem_set hi with hi | rfl
      · exact hinst i hi
      · rw [hid]; exact hinst inst (List.getElem?_mem hp)
    · intro i hi e he
      rcases List.mem_or_eq_of_mem_set hi with hi | rfl
      · exact hent i hi e he
      · rw [hd] at he; exact hent inst (List.getElem?_mem hp) e he
  · have htrack : trackIds p (Call.feed_url_stream this u rc hs te td)
        (Ret.bool (feed_url_stream ops inst u rc hs te td).1)
        (p.fed ops this inst u rc hs te td) log = log := rfl
    rw [htrack]
    refine ⟨hseq, hnext, ?_, ?_⟩
    · intro i hi
      rcases List.mem_or_eq_of_mem_set hi with hi | rfl
      · exact hinst i hi
      · rw [(feed_url_stream_frame ops inst u rc hs te td).2.1]
        exact hinst inst (List.getElem?_mem hp)
    · intro i hi e he
      rcases List.mem_or_eq_of_mem_set hi with hi | rfl
      · exact hent i hi e he
      · rcases (feed_url_stream_entries ops inst u rc hs te td e).1 he with
          ⟨_, h1⟩ | ⟨d, hd, h1 | ⟨rfl, _, _⟩⟩
        · exact hent inst (List.getElem?_mem hp) e h1
        · exact hent inst (List.getElem?_mem hp) e h1.1
        · exact hent inst (List.getElem?_mem hp) (u, d) (find_some_mem u d _ hd)
  · have htrack : trackIds p (Call.start_download this d)
        (Ret.download Outcome.returned (d.set_download_id p._next_instance_id))
        (p.afterStart this inst d) log = log ++ [(IdKind.download_id, p._next_instance_id)] := rfl
    rw [htrack]
    refine ⟨ids_snoc log _ _ hseq hnext, ?_, ?_, ?_⟩
    · simp only [Process.afterStart, List.length_append, List.length_singleton, hnext]
      push_cast
      rfl
    · intro i hi
      rcases List.mem_or_eq_of_mem_set hi with hi | rfl
      · exact List.mem_append_left _ (hinst i hi)
      · exact List.mem_append_left _ (hinst inst (List.getElem?_mem hp))
    · intro i hi e he
      rcases List.mem_or_eq_of_mem_set hi with hi | rfl
      · exact List.mem_append_left _ (hent i hi e he)
      · rcases (mem_orderedInsert _ _ _ e).1 he with rfl | he
        · simp [P3DDownload.set_download_id]
        · exact List.mem_append_left _ (hent inst (List.getElem?_mem hp) e he)

theorem fresh_ids_inv {S : Type} : IdsInv (Process.fresh : Process S) [] := by
  refine ⟨rfl, rfl, ?_, ?_⟩ <;> (intro i hi; simp [Process.fresh] at hi)

theorem range_ids_nodup (n : Nat) : ((List.range n).map Int.ofNat).Nodup :=
  (List.nodup_range n).map (fun _ _ h => Int.ofNat.inj h)

/-- A call that is neither a construction nor a `start_download` leaves the
counter as it was. -/
theorem call_counter_frame {S : Type} (ops : DownloadOps S) (p p' : Process S) (c : Call S)
    (r : Ret S) (hc : Call.takesId c = false)
    (hcall : Process.call ops p c = some (r, p')) :
    p'._next_instance_id = p._next_instance_id := by
  cases c with
  | construct tokens => simp [Call.takesId] at hc
  | start_download this d => simp [Call.takesId] at hc
  | has_request this =>
    exact (call_queue_op_frame ops p p' (Call.has_request this) r rfl hcall).1
  | get_request this =>
    exact (call_queue_op_frame ops p p' (Call.get_request this) r rfl hcall).1
  | add_request this request =>
    exact (call_queue_op_frame ops p p' (Call.add_request this request) r rfl hcall).1
  | finish_request this request handled =>
    exact (call_queue_op_frame ops p p' (Call.finish_request this request handled) r rfl
      hcall).1
  | feed_url_stream this u rc hs te td =>
    cases hp : p.heap[this]? with
    | none => simp [Process.call, hp] at hcall
    | some inst =>
      rw [call_feed_eq ops p this inst u rc hs te td hp] at hcall
      simp only [Option.some.injEq, Prod.mk.injEq] at hcall
      obtain ⟨_, rfl⟩ := hcall
      rfl

/-! ## The invariant of the history of started downloads -/

theorem get_set_cases {α : Type} (l : List α) (this a : Nat) (x y z : α)
    (hz : l[this]? = some z) (h : (l.set this x)[a]? = some y) :
    (a = this ∧ y = x) ∨ (a ≠ this ∧ l[a]? = some y) := by
  by_cases e : a = this
  · subst e
    rw [heap_get_set_same l a z x hz] at h
    exact Or.inl ⟨rfl, (Option.some.inj h).symm⟩
  · rw [heap_get_set_other l this a x (fun e' => e e'.symm)] at h
    exact Or.inr ⟨e, h⟩

theorem get_append_cases {α : Type} (l : List α) (a : Nat) (x y : α)
    (h : (l ++ [x])[a]? = some y) : l[a]? = some y ∨ y = x := by
  by_cases hlt : a < l.length
  · rw [List.getElem?_append_left hlt] at h
    exact Or.inl h
  · have hlen : a < (l ++ [x]).length := (List.getElem?_eq_some.1 h).1
    simp only [List.length_append, List.length_singleton] at hlen
    have ha : a = l.length := by omega
    subst ha
    simp at h
    exact Or.inr h.symm

theorem get_append_left {α : Type} (l : List α) (a : Nat) (x y : α) (h : l[a]? = some y) :
    (l ++ [x])[a]? = some y := by
  rw [List.getElem?_append_left (List.getElem?_eq_some.1 h).1]
  exact h

theorem fed_owner {S : Type} (ops : DownloadOps S) (a : Nat) (u : Int) (rc : P3D_result_code)
    (hs : Int) (te : Nat) (td : List Nat) (s : Started S) :
    (Started.fed ops a u rc hs te td s).owner = s.owner ∧
      (Started.fed ops a u rc hs te td s).download._download_id = s.download._download_id := by
  unfold Started.fed
  split <;> exact ⟨rfl, rfl⟩

theorem fed_other {S : Type} (ops : DownloadOps S) (a : Nat) (u : Int) (rc : P3D_result_code)
    (hs : Int) (te : Nat) (td : List Nat) (s : Started S)
    (h : ¬ (s.owner = a ∧ s.download._download_id = u)) :
    Started.fed ops a u rc hs te td s = s := by
  unfold Started.fed
  rw [if_neg h]

theorem fed_match {S : Type} (ops : DownloadOps S) (a : Nat) (u : Int) (rc : P3D_result_code)
    (hs : Int) (te : Nat) (td : List Nat) (d : P3DDownload S) (hd : d._download_id = u) :
    Started.fed ops a u rc hs te td { owner := a, download := d, rejected := false } =
      { owner := a
        download := { d with _state := (ops.feed_url_stream d._state rc hs te td).2 }
        rejected := !(ops.feed_url_stream d._state rc hs te td).1 } := by
  unfold Started.fed
  rw [if_pos ⟨rfl, hd⟩]
  simp

/-- A construction keeps the invariant of the history. -/
theorem started_inv_construct {S : Type} (ops : DownloadOps S) (p : Process S)
    (log : List (Started S)) (tokens : List P3D_token) (hI : StartedInv ops p log) :
    StartedInv ops (construct p tokens).2 log := by
  obtain ⟨h1, h2, h3, h4⟩ := hI
  refine ⟨?_, ?_, ?_, h4⟩
  · intro a i hi e he
    rcases get_append_cases _ _ _ _ hi with hi | rfl
    · exact h1 a i hi e he
    · simp at he
  · intro s hs hr hf
    obtain ⟨i, hi, he⟩ := h2 s hs hr hf
    exact ⟨i, get_append_left _ _ _ _ hi, he⟩
  · intro s hs
    have := h3 s hs
    simp only [construct]
    omega

/-- Putting back an instance with the same registry keeps the invariant of
the history. -/
theorem started_inv_same_registry {S : Type} (ops : DownloadOps S) (p : Process S)
    (log : List (Started S)) (this : Nat) (inst inst' : P3DInstance S)
    (hp : p.heap[this]? = some inst) (hd : inst'._downloads = inst._downloads)
    (hI : StartedInv ops p log) : StartedInv ops (p.withInstance this inst') log := by
  obtain ⟨h1, h2, h3, h4⟩ := hI
  refine ⟨?_, ?_, h3, h4⟩
  · intro a i hi e he
    rcases get_set_cases _ _ _ _ _ _ hp hi with ⟨rfl, rfl⟩ | ⟨_, hi⟩
    · rw [hd] at he
      exact h1 a inst hp e he
    · exact h1 a i hi e he
  · intro s hs hr hf
    obtain ⟨i, hi, he⟩ := h2 s hs hr hf
    by_cases ho : s.owner = this
    · rw [ho] at hi ⊢
      rw [hp] at hi
      have : i = inst := (Option.some.inj hi).symm
      subst this
      exact ⟨inst', heap_get_set_same _ _ _ _ hp, by rw [hd]; exact he⟩
    · refine ⟨i, ?_, he⟩
      show (p.heap.set this inst')[s.owner]? = some i
      rw [heap_get_set_other _ _ _ _ (fun e => ho e.symm)]
      exact hi

/-- A `feed_url_stream` that finds its id keeps the invariant of the history,
the chunk forwarded to the started download. -/
theorem started_inv_feed {S : Type} (ops : DownloadOps S) (p : Process S)
    (log : List (Started S)) (this : Nat) (inst : P3DInstance S) (u : Int) (d : P3DDownload S)
    (rc : P3D_result_code) (hs : Int) (te : Nat) (td : List Nat)
    (hp : p.heap[this]? = some inst) (hfind : Downloads.find u inst._downloads = some d)
    (hI : StartedInv ops p log) :
    StartedInv ops (p.fed ops this inst u rc hs te td)
      (log.map (Started.fed ops this u rc hs te td)) := by
  obtain ⟨h1, h2, h3, h4⟩ := hI
  have hd := h1 this inst hp (u, d) (find_some_mem u d _ hfind)
  have hs0 : Started.fed ops this u rc hs te td { owner := this, download := d, rejected := false }
      ∈ log.map (Started.fed ops this u rc hs te td) := List.mem_map_of_mem _ hd.1
  rw [fed_match ops this u rc hs te td d hd.2.1] at hs0
  have hnew : (p.fed ops this inst u rc hs te td).heap[this]? =
      some (feed_url_stream ops inst u rc hs te td).2 := heap_get_set_same _ _ _ _ hp
  refine ⟨?_, ?_, ?_, ?_⟩
  · intro a i hi e he
    rcases get_set_cases _ _ _ _ _ _ hp hi with ⟨rfl, rfl⟩ | ⟨hne, hi⟩
    · rcases (feed_url_stream_entries ops inst u rc hs te td e).1 he with
        ⟨h0, _⟩ | ⟨d', hd', hold | ⟨rfl, hok, hnot⟩⟩
      · rw [hfind] at h0; exact absurd h0 (by simp)
      · obtain ⟨hm, hid, hf⟩ := h1 a inst hp e hold.1
        refine ⟨?_, hid, hf⟩
        have hmapped := List.mem_map_of_mem (Started.fed ops a u rc hs te td) hm
        rwa [fed_other ops a u rc hs te td _ (by
          simp only [not_and]
          intro _
          rw [hid]
          exact hold.2)] at hmapped
      · rw [hfind] at hd'
        have hdd : d = d' := Option.some.inj hd'
        subst hdd
        rw [hok] at hs0
        exact ⟨hs0, hd.2.1, hnot⟩
    · obtain ⟨hm, hid, hf⟩ := h1 a i hi e he
      refine ⟨?_, hid, hf⟩
      have hmapped := List.mem_map_of_mem (Started.fed ops this u rc hs te td) hm
      rwa [fed_other ops this u rc hs te td _ (by
        simp only [not_and]
        intro ha
        exact absurd ha hne)] at hmapped
  · intro t' ht' hr hf
    obtain ⟨t, ht, rfl⟩ := List.mem_map.1 ht'
    by_cases hm : t.owner = this ∧ t.download._download_id = u
    · have ht0 : t = { owner := this, download := d, rejected := false } :=
        h4 t ht _ hd.1 (by rw [hm.2, hd.2.1])
      subst ht0
      rw [fed_match ops this u rc hs te td d hd.2.1] at hr hf ⊢
      simp only [Bool.not_eq_false'] at hr
      refine ⟨_, hnew, ?_⟩
      apply (feed_url_stream_entries ops inst u rc hs te td _).2
      have hdu : d._download_id = u := hd.2.1
      refine Or.inr ⟨d, hfind, Or.inr ⟨?_, hr, hf⟩⟩
      show (d._download_id, _) = (u, _)
      rw [hdu]
    · rw [fed_other ops this u rc hs te td t hm] at hr hf ⊢
      obtain ⟨i, hi, he⟩ := h2 t ht hr hf
      by_cases ho : t.owner = this
      · rw [ho] at hi ⊢
        rw [hp] at hi
        have hii : i = inst := (Option.some.inj hi).symm
        subst hii
        refine ⟨_, hnew, ?_⟩
        apply (feed_url_stream_entries ops i u rc hs te td _).2
        exact Or.inr ⟨d, hfind, Or.inl ⟨he, fun e => hm ⟨ho, e⟩⟩⟩
      · refine ⟨i, ?_, he⟩
        show (p.heap.set this _)[t.owner]? = some i
        rw [heap_get_set_other _ _ _ _ (fun e => ho e.symm)]
        exact hi
  · intro t' ht'
    obtain ⟨t, ht, rfl⟩ := List.mem_map.1 ht'
    rw [(fed_owner ops this u rc hs te td t).2]
    exact h3 t ht
  · intro s' hs' t' ht' hEq
    obtain ⟨s, hsm, rfl⟩ := List.mem_map.1 hs'
    obtain ⟨t, ht, rfl⟩ := List.mem_map.1 ht'
    rw [(fed_owner ops this u rc hs te td s).2, (fed_owner ops this u rc hs te td t).2] at hEq
    rw [h4 s hsm t ht hEq]

/-- A returning `start_download` of a download that does not report finished
keeps the invariant of the history, the download added to it. -/
theorem started_inv_start {S : Type} (ops : DownloadOps S) (p : Process S)
    (log : List (Started S)) (this : Nat) (inst : P3DInstance S) (d : P3DDownload S)
    (hp : p.heap[this]? = some inst)
    (hpending : ops.get_download_finished d._state = false)
    (hI : StartedInv ops p log) :
    StartedInv ops (p.afterStart this inst d)
      (log ++ [{ owner := this, download := d.set_download_id p._next_instance_id
                 rejected := false }]) := by
  obtain ⟨h1, h2, h3, h4⟩ := hI
  have hnew : (p.afterStart this inst d).heap[this]? =
      some (started this p._next_instance_id inst d) := heap_get_set_same _ _ _ _ hp
  refine ⟨?_, ?_, ?_, ?_⟩
  · intro a i hi e he
    rcases get_set_cases _ _ _ _ _ _ hp hi with ⟨rfl, rfl⟩ | ⟨_, hi⟩
    · rcases (mem_orderedInsert _ _ _ e).1 he with rfl | he
      · exact ⟨List.mem_append_right _ (List.mem_singleton_self _), rfl, hpending⟩
      · obtain ⟨hm, hid, hf⟩ := h1 a inst hp e he
        exact ⟨List.mem_append_left _ hm, hid, hf⟩
    · obtain ⟨hm, hid, hf⟩ := h1 a i hi e he
      exact ⟨List.mem_append_left _ hm, hid, hf⟩
  · intro s hs hr hf
    rcases List.mem_append.1 hs with hs | hs
    · obtain ⟨i, hi, he⟩ := h2 s hs hr hf
      by_cases ho : s.owner = this
      · rw [ho] at hi ⊢
        rw [hp] at hi
        have hii : i = inst := (Option.some.inj hi).symm
        subst hii
        exact ⟨_, hnew, (mem_orderedInsert _ _ _ _).2 (Or.inr he)⟩
      · refine ⟨i, ?_, he⟩
        show (p.heap.set this _)[s.owner]? = some i
        rw [heap_get_set_other _ _ _ _ (fun e => ho e.symm)]
        exact hi
    · rw [List.mem_singleton] at hs
      subst hs
      exact ⟨_, hnew, (mem_orderedInsert _ _ _ _).2 (Or.inl rfl)⟩
  · intro s hs
    rcases List.mem_append.1 hs with hs | hs
    · have := h3 s hs
      simp only [Process.afterStart]
      omega
    · rw [List.mem_singleton] at hs
      subst hs
      simp only [Process.afterStart, P3DDownload.set_download_id]
      omega
  · intro s hs t ht hEq
    rcases List.mem_append.1 hs with hs | hs <;> rcases List.mem_append.1 ht with ht | ht
    · exact h4 s hs t ht hEq
    · rw [List.mem_singleton] at ht
      subst ht
      have := h3 s hs
      simp only [P3DDownload.set_download_id] at hEq
      omega
    · rw [List.mem_singleton] at hs
      subst hs
      have := h3 t ht
      simp only [P3DDownload.set_download_id] at hEq
      omega
    · rw [List.mem_singleton] at hs ht
      rw [hs, ht]

/-- Every returning call keeps the invariant of the history of started
downloads, provided a download passed to `start_download` does not report
finished. -/
theorem step_started_inv {S : Type} (ops : DownloadOps S) (p p' : Process S)
    (log : List (Started S)) (c : Call S) (r : Ret S)
    (hc : Call.startsPending ops c = true) (hI : StartedInv ops p log)
    (hcall : Process.call ops p c = some (r, p')) (hret : r.aborted = false) :
    StartedInv ops p' (trackStarted ops p c r p' log) := by
  rcases step_effect ops p p' c r hcall hret with
    ⟨tokens, rfl, rfl, rfl⟩ | ⟨this, inst, inst', hq, hp, rfl, _, _, hd⟩ |
    ⟨this, inst, u, rc, hs, te, td, rfl, hp, rfl, rfl⟩ |
    ⟨this, inst, d, rfl, hp, hid, hfree, rfl, rfl⟩
  · exact started_inv_construct ops p log tokens hI
  · rw [trackStarted_queue_op ops p _ c r log hq]
    exact started_inv_same_registry ops p log this inst inst' hp hd hI
  · cases hfind : Downloads.find u inst._downloads with
    | none =>
      have htrack : trackStarted ops p (Call.feed_url_stream this u rc hs te td)
          (Ret.bool (feed_url_stream ops inst u rc hs te td).1)
          (p.fed ops this inst u rc hs te td) log = log := by
        simp only [trackStarted, registry_of_some p this inst hp, hfind]
      rw [htrack]
      have hsame : p.fed ops this inst u rc hs te td = p.withInstance this inst := by
        simp only [Process.fed, Process.withInstance,
          feed_url_stream_unknown ops inst u rc hs te td hfind]
      rw [hsame]
      exact started_inv_same_registry ops p log this inst inst hp rfl hI
    | some d =>
      have htrack : trackStarted ops p (Call.feed_url_stream this u rc hs te td)
          (Ret.bool (feed_url_stream ops inst u rc hs te td).1)
          (p.fed ops this inst u rc hs te td) log =
          log.map (Started.fed ops this u rc hs te td) := by
        simp only [trackStarted, registry_of_some p this inst hp, hfind]
      rw [htrack]
      exact started_inv_feed ops p log this inst u d rc hs te td hp hfind hI
  · have hpending : ops.get_download_finished d._state = false := by
      simpa [Call.startsPending] using hc
    exact started_inv_start ops p log this inst d hp hpending hI

theorem fresh_started_inv {S : Type} (ops : DownloadOps S) :
    StartedInv ops (Process.fresh : Process S) [] := by
  refine ⟨?_, ?_, ?_, ?_⟩
  · intro a i hi
    simp [Process.fresh] at hi
  · intro s hs
    simp at hs
  · intro s hs
    simp at hs
  · intro s hs
    simp at hs

/-! ## The statements of `start_download`, one thread at a time -/

/-- The six statements run in a row by one thread are the method
`start_download`: the same outcome, counter, instance and download. -/
theorem start_download_steps_eq {S : Type} (this : Nat) (next : Int) (inst : P3DInstance S)
    (d : P3DDownload S) :
    (start_download_steps this 6 (next, inst, StartThread.enter d)).2.2.outcome =
        some (start_download this next inst d).1 ∧
      (start_download_steps this 6 (next, inst, StartThread.enter d)).1 =
        (start_download this next inst d).2.1 ∧
      (start_download_steps this 6 (next, inst, StartThread.enter d)).2.1 =
        (start_download this next inst d).2.2.1 ∧
      (start_download_steps this 6 (next, inst, StartThread.enter d)).2.2.download =
        (start_download this next inst d).2.2.2 := by
  by_cases hid : d._download_id = 0
  · cases hfind : Downloads.find next inst._downloads with
    | none =>
      rw [start_download_ok this next inst d hid hfind]
      simp [start_download_steps, start_download_step, StartThread.enter,
        P3DDownload.get_download_id, hid, Downloads.insert, hfind, add_request,
        P3DDownload.set_download_id, P3DDownload.get_url, get_url_request]
    | some d0 =>
      rw [start_download_collide this next inst d d0 hid hfind]
      simp [start_download_steps, start_download_step, StartThread.enter,
        P3DDownload.get_download_id, hid, Downloads.insert, hfind,
        P3DDownload.set_download_id]
  · rw [start_download_reject this next inst d hid]
    simp [start_download_steps, start_download_step, StartThread.enter,
      P3DDownload.get_download_id, hid]

/-- C1: for every sequence of `add_request` and `get_request` calls on one
instance whose pending queue starts empty, each `add_request` carrying a
request whose back-reference is that instance, every call returns, and the
non-NULL results of `get_request`, in call order, are a prefix of the requests
passed to `add_request`, in call order; what was added and not yet delivered
is exactly the final queue. -/
theorem C1_queue_is_fifo {S : Type} (ops : DownloadOps S) (p : Process S) (a : Nat)
    (inst : P3DInstance S) (cs : List (Call S))
    (hinst : p.heap[a]? = some inst) (hempty : inst._pending_requests = [])
    (hcs : ∀ c ∈ cs, Call.isQueueCallOn a c = true) :
    ∃ rs p', Process.run ops p cs = some (rs, p') ∧
      delivered_requests rs <+: added_requests cs ∧
      added_requests cs = delivered_requests rs ++ p'.queue a := by
  obtain ⟨rs, p', hrun, hinv⟩ := queue_run_invariant ops a cs hcs p inst hinst
  rw [hempty, List.nil_append] at hinv
  exact ⟨rs, p', hrun, ⟨p'.queue a, hinv.symm⟩, hinv⟩

/-- C1 at a concrete run: two requests are added, one is taken, a third is
added and one more is taken. -/
theorem C1_queue_is_fifo_witness :
    ∃ rs p', Process.run countingOps sampleProcess
        [Call.add_request 0 (sampleRequest 1), Call.add_request 0 (sampleRequest 2),
          Call.get_request 0, Call.add_request 0 (sampleRequest 3), Call.get_request 0]
        = some (rs, p') ∧
      delivered_requests rs <+: added_requests
        ([Call.add_request 0 (sampleRequest 1), Call.add_request 0 (sampleRequest 2),
          Call.get_request 0, Call.add_request 0 (sampleRequest 3), Call.get_request 0] :
          List (Call (Nat × Bool))) ∧
      added_requests
        ([Call.add_request 0 (sampleRequest 1), Call.add_request 0 (sampleRequest 2),
          Call.get_request 0, Call.add_request 0 (sampleRequest 3), Call.get_request 0] :
          List (Call (Nat × Bool))) = delivered_requests rs ++ p'.queue 0 :=
  C1_queue_is_fifo countingOps sampleProcess 0
    { _instance_id := 0, _tokens := [], _pending_requests := [], _downloads := [] }
    _ rfl rfl (by decide)

/-- C2: `get_request` on an empty queue returns NULL and leaves the instance,
its queue included, as it was; on a queue with head `r` it returns `r` and the
new queue is the old queue without that head, nothing else changed. -/
theorem C2_get_request_head {S : Type} (inst : P3DInstance S) :
    (inst._pending_requests = [] → get_request inst = (none, inst)) ∧
    (∀ r rest, inst._pending_requests = r :: rest →
      get_request inst = (some r, { inst with _pending_requests := rest })) :=
  ⟨get_request_nil inst, fun r rest h => get_request_cons inst r rest h⟩

/-- C2 at a concrete input: the sample instance holds one pending request,
which `get_request` returns, leaving the queue empty. -/
theorem C2_get_request_head_witness :
    get_request sampleInstance1 =
      (some (sampleRequest 1), { sampleInstance1 with _pending_requests := [] }) :=
  (C2_get_request_head sampleInstance1).2 (sampleRequest 1) [] rfl

/-- C3: `has_request` returns true exactly when the pending queue holds at
least one request; it leaves the instance, and the whole process, unchanged;
and when it returns false the `get_request` that follows returns NULL. -/
theorem C3_has_request {S : Type} (ops : DownloadOps S) (inst : P3DInstance S) :
    ((has_request inst).1 = true ↔ 1 ≤ inst._pending_requests.length) ∧
    (has_request inst).2 = inst ∧
    (∀ (p : Process S) (a : Nat), p.heap[a]? = some inst →
      Process.call ops p (Call.has_request a) = some (Ret.bool (has_request inst).1, p)) ∧
    ((has_request inst).1 = false → (get_request (has_request inst).2).1 = none) := by
  refine ⟨?_, rfl, ?_, ?_⟩
  · cases h : inst._pending_requests <;> simp [has_request, h]
  · intro p a hp
    simp [Process.call, hp, has_request, heap_set_same _ _ _ hp]
  · intro hfalse
    cases h : inst._pending_requests with
    | nil => simp [has_request, get_request, h]
    | cons r rest => simp [has_request, h] at hfalse

/-- C3 at a concrete input: on the process with one instance and an empty
queue `has_request` returns false and changes nothing. -/
theorem C3_has_request_witness :
    Process.call countingOps sampleProcess (Call.has_request 0) =
      some (Ret.bool false, sampleProcess) :=
  (C3_has_request countingOps
    { _instance_id := 0, _tokens := [], _pending_requests := [], _downloads := [] }).2.2.1
    sampleProcess 0 rfl

/-- C4: a chunk fed under an id that is not a key of the registry is refused:
the call returns false and the registry, the pending queue and the id counter
(the whole process) are unchanged; the result does not depend on the
ingestion of any download, which is never run. -/
theorem C4_feed_unknown_id {S : Type} (ops : DownloadOps S) (p : Process S) (a : Nat)
    (inst : P3DInstance S) (unique_id : Int) (rc : P3D_result_code) (hs : Int) (te : Nat)
    (td : List Nat) (hinst : p.heap[a]? = some inst)
    (hunknown : unique_id ∉ Downloads.keys inst._downloads) :
    Process.call ops p (Call.feed_url_stream a unique_id rc hs te td) =
        some (Ret.bool false, p) ∧
      feed_url_stream ops inst unique_id rc hs te td = (false, inst) ∧
      ∀ ops' : DownloadOps S,
        feed_url_stream ops' inst unique_id rc hs te td =
          feed_url_stream ops inst unique_id rc hs te td := by
  have h := (find_none_iff_not_key unique_id inst._downloads).2 hunknown
  refine ⟨call_feed_unknown ops p a inst unique_id rc hs te td hinst h,
    feed_url_stream_unknown ops inst unique_id rc hs te td h, ?_⟩
  intro ops'
  rw [feed_url_stream_unknown ops inst unique_id rc hs te td h,
    feed_url_stream_unknown ops' inst unique_id rc hs te td h]

/-- C4 at a concrete input: id 2 is fed while only id 1 is registered. -/
theorem C4_feed_unknown_id_witness :
    Process.call countingOps sampleProcess1 (Call.feed_url_stream 0 2 1 200 10 [1, 2, 3]) =
        some (Ret.bool false, sampleProcess1) ∧
      feed_url_stream countingOps sampleInstance1 2 1 200 10 [1, 2, 3] =
        (false, sampleInstance1) ∧
      ∀ ops' : DownloadOps (Nat × Bool),
        feed_url_stream ops' sampleInstance1 2 1 200 10 [1, 2, 3] =
          feed_url_stream countingOps sampleInstance1 2 1 200 10 [1, 2, 3] :=
  C4_feed_unknown_id countingOps sampleProcess1 0 sampleInstance1 2 1 200 10 [1, 2, 3] rfl
    (by decide)

/-- C5: when a chunk fed under a registered id makes the download's ingestion
return false, or leaves the download reporting finished, the call returns the
ingestion's result and the id is no longer a key of the registry; after any
further calls that contain no `start_download` on this instance, every chunk
fed under the same id is refused (false) and changes nothing. -/
theorem C5_terminal_chunk_retires {S : Type} (ops : DownloadOps S) (p : Process S) (a : Nat)
    (inst : P3DInstance S) (unique_id : Int) (d : P3DDownload S) (rc : P3D_result_code)
    (hs : Int) (te : Nat) (td : List Nat)
    (hinst : p.heap[a]? = some inst)
    (hreg : Downloads.find unique_id inst._downloads = some d)
    (hterm : (ops.feed_url_stream d._state rc hs te td).1 = false ∨
      ops.get_download_finished (ops.feed_url_stream d._state rc hs te td).2 = true) :
    ∃ p1, Process.call ops p (Call.feed_url_stream a unique_id rc hs te td) =
        some (Ret.bool (ops.feed_url_stream d._state rc hs te td).1, p1) ∧
      unique_id ∉ Downloads.keys (p1.registry a) ∧
      ∀ (cs : List (Call S)) (rs : List (Ret S)) (p2 : Process S),
        (∀ c ∈ cs, Call.isStartDownloadOn a c = false) →
        Process.run ops p1 cs = some (rs, p2) →
        ∀ (rc' : P3D_result_code) (hs' : Int) (te' : Nat) (td' : List Nat),
          Process.call ops p2 (Call.feed_url_stream a unique_id rc' hs' te' td') =
            some (Ret.bool false, p2) := by
  have hget : (p.heap.set a (retire unique_id inst))[a]? = some (retire unique_id inst) :=
    heap_get_set_same _ _ _ _ hinst
  have hnone : Downloads.find unique_id (Process.registry
      ({ p with heap := p.heap.set a (retire unique_id inst) } : Process S) a) = none := by
    rw [registry_of_some _ a _ hget]
    exact find_erase_self unique_id inst._downloads
  have hlt : a < (p.heap.set a (retire unique_id inst)).length := by
    rw [List.length_set]
    exact (List.getElem?_eq_some.1 hinst).1
  refine ⟨{ p with heap := p.heap.set a (retire unique_id inst) }, ?_, ?_, ?_⟩
  · simp [Process.call, hinst, retire,
      feed_url_stream_retire ops inst unique_id d rc hs te td hreg hterm]
  · exact (find_none_iff_not_key _ _).1 hnone
  · intro cs rs p2 hcs hrun rc' hs' te' td'
    obtain ⟨hlt2, hnone2⟩ := run_keeps_unregistered ops a unique_id cs hcs _ p2 rs hrun hlt hnone
    obtain ⟨inst2, hinst2⟩ : ∃ inst2, p2.heap[a]? = some inst2 :=
      ⟨p2.heap[a], List.getElem?_eq_getElem hlt2⟩
    rw [registry_of_some p2 a inst2 hinst2] at hnone2
    exact call_feed_unknown ops p2 a inst2 unique_id rc' hs' te' td' hinst2 hnone2

/-- C5 at a concrete input: the download under id 1 expects 3 bytes and
receives them in one chunk with result code 1. -/
theorem C5_terminal_chunk_retires_witness :
    ∃ p1, Process.call countingOps sampleProcess1 (Call.feed_url_stream 0 1 1 200 3 [7, 8, 9]) =
        some (Ret.bool true, p1) ∧
      (1 : Int) ∉ Downloads.keys (p1.registry 0) ∧
      ∀ (cs : List (Call (Nat × Bool))) (rs : List (Ret (Nat × Bool)))
        (p2 : Process (Nat × Bool)),
        (∀ c ∈ cs, Call.isStartDownloadOn 0 c = false) →
        Process.run countingOps p1 cs = some (rs, p2) →
        ∀ (rc' : P3D_result_code) (hs' : Int) (te' : Nat) (td' : List Nat),
          Process.call countingOps p2 (Call.feed_url_stream 0 1 rc' hs' te' td') =
            some (Ret.bool false, p2) :=
  C5_terminal_chunk_retires countingOps sampleProcess1 0 sampleInstance1 1
    { _download_id := 1, _url := "http://x/a.bin", _state := (0, false) } 1 200 3 [7, 8, 9]
    rfl rfl (Or.inr rfl)

/-- C6: in every state reached by a run from the fresh process, the id that
`start_download` assigns (the counter value) is none of the ids assigned
earlier in the run and is not a key of the instance's registry; so the
`inserted` assertion does not fail for any download, and for a download
without an id the call returns, with the download registered under that id. -/
theorem C6_assigned_id_is_fresh {S : Type} (ops : DownloadOps S) (cs : List (Call S))
    (rs : List (Ret S)) (p : Process S) (a : Nat) (inst : P3DInstance S)
    (hrun : Process.run ops Process.fresh cs = some (rs, p))
    (hinst : p.heap[a]? = some inst) :
    p._next_instance_id ∉ assigned_ids rs ∧
      p._next_instance_id ∉ Downloads.keys inst._downloads ∧
      (∀ d : P3DDownload S, (start_download a p._next_instance_id inst d).1 ≠
        Outcome.assert_failed inserted_assertion) ∧
      (∀ d : P3DDownload S, d._download_id = 0 →
        ∃ p', Process.call ops p (Call.start_download a d) =
            some (Ret.download Outcome.returned (d.set_download_id p._next_instance_id), p') ∧
          (d.set_download_id p._next_instance_id)._download_id = p._next_instance_id ∧
          Downloads.find p._next_instance_id (p'.registry a) =
            some (d.set_download_id p._next_instance_id)) := by
  obtain ⟨hinv, _, hids⟩ := run_inv ops cs Process.fresh p rs fresh_inv hrun
  obtain ⟨hfree, _⟩ := inv_counter_free p a inst hinv hinst
  refine ⟨?_, (find_none_iff_not_key _ _).1 hfree, ?_, ?_⟩
  · intro hmem
    have := (hids _ hmem).2
    omega
  · intro d
    by_cases hid : d._download_id = 0
    · rw [start_download_ok a _ inst d hid hfree]
      simp
    · rw [start_download_reject a _ inst d hid]
      simpa using assertions_differ.1
  · intro d hid
    refine ⟨_, call_start_download_ok ops p a inst d hinst hid hfree, rfl, ?_⟩
    have hget : (p.heap.set a (started a p._next_instance_id inst d))[a]? =
        some (started a p._next_instance_id inst d) := heap_get_set_same _ _ _ _ hinst
    rw [registry_of_some _ a _ hget]
    exact find_orderedInsert_self _ _ _ hfree

/-- C6 at a concrete run: an instance is constructed, a download is started
(it gets id 1) and its request is taken; the next id is 2. -/
theorem C6_assigned_id_is_fresh_witness :
    (2 : Int) ∉ assigned_ids
        [Ret.pointer 0, Ret.download Outcome.returned
          ({ _download_id := 1, _url := "http://x/a.bin", _state := (0, false) } :
            P3DDownload (Nat × Bool)),
          Ret.request (some (sampleRequest 1))] ∧
      (2 : Int) ∉ Downloads.keys
        ({ sampleInstance1 with _pending_requests := [] } : P3DInstance (Nat × Bool))._downloads ∧
      (∀ d : P3DDownload (Nat × Bool),
        (start_download 0 2 { sampleInstance1 with _pending_requests := [] } d).1 ≠
          Outcome.assert_failed inserted_assertion) ∧
      (∀ d : P3DDownload (Nat × Bool), d._download_id = 0 →
        ∃ p', Process.call countingOps
            { _next_instance_id := 2, heap := [{ sampleInstance1 with _pending_requests := [] }] }
            (Call.start_download 0 d) =
            some (Ret.download Outcome.returned (d.set_download_id 2), p') ∧
          (d.set_download_id 2)._download_id = 2 ∧
          Downloads.find 2 (p'.registry 0) = some (d.set_download_id 2)) :=
  C6_assigned_id_is_fresh countingOps
    [Call.construct [], Call.start_download 0 sampleDownload, Call.get_request 0]
    [Ret.pointer 0, Ret.download Outcome.returned
      { _download_id := 1, _url := "http://x/a.bin", _state := (0, false) },
      Ret.request (some (sampleRequest 1))]
    { _next_instance_id := 2, heap := [{ sampleInstance1 with _pending_requests := [] }] }
    0 { sampleInstance1 with _pending_requests := [] } rfl rfl

/-- C7 (the claim as stated fails): in the process with one instance,
`start_download` of a download whose url is "a", NUL, "b" queues a request
whose url is "a", not the download's url; and in a state whose registry
already holds the counter value 1 as a key, `start_download` of a download
without an id fails the `inserted` assertion, queues nothing and leaves the
old download under the key. -/
theorem C7_counterexample :
    (∃ p' d' req, Process.call countingOps sampleProcess (Call.start_download 0 nulDownload) =
        some (Ret.download Outcome.returned d', p') ∧
      p'.queue 0 = [req] ∧ req._url = "a" ∧ req._url ≠ nulDownload._url) ∧
    (∃ p' d', Process.call countingOps { _next_instance_id := 1, heap := [collidingInstance] }
        (Call.start_download 0 sampleDownload) =
        some (Ret.download (Outcome.assert_failed inserted_assertion) d', p') ∧
      p'.queue 0 = [] ∧ Downloads.find 1 (p'.registry 0) ≠ some d') :=
  ⟨⟨_, _, _, rfl, rfl, rfl, by decide⟩, ⟨_, _, rfl, rfl, by decide⟩⟩

/-- C7 (amended): in every instance state whose registry does not hold the
current counter value as a key, `start_download` of a download whose id is 0
returns; the download's id becomes the assigned id (the counter value), the
registry maps that id to the download, the counter advances by one, and
exactly one request is appended to the tail of the pending queue, the requests
already queued unchanged: its type is get_url, its unique_id the assigned id,
its back-reference this instance, and its url the download's url up to its
first NUL character, which is the download's url when that holds no NUL. -/
theorem C7_start_download_registers {S : Type} (ops : DownloadOps S) (p : Process S) (a : Nat)
    (inst : P3DInstance S) (d : P3DDownload S)
    (hinst : p.heap[a]? = some inst) (hid : d._download_id = 0)
    (hfree : p._next_instance_id ∉ Downloads.keys inst._downloads) :
    ∃ p', Process.call ops p (Call.start_download a d) =
        some (Ret.download Outcome.returned (d.set_download_id p._next_instance_id), p') ∧
      (d.set_download_id p._next_instance_id)._download_id = p._next_instance_id ∧
      (d.set_download_id p._next_instance_id)._url = d._url ∧
      (d.set_download_id p._next_instance_id)._state = d._state ∧
      p'._next_instance_id = p._next_instance_id + 1 ∧
      Downloads.find p._next_instance_id (p'.registry a) =
        some (d.set_download_id p._next_instance_id) ∧
      p'.queue a = inst._pending_requests ++
        [{ _instance := a
           _request_type := P3D_request_type.P3D_RT_get_url
           _url := c_str d._url
           _unique_id := p._next_instance_id }] ∧
      (Char.ofNat 0 ∉ d._url.data → c_str d._url = d._url) := by
  have hfind := (find_none_iff_not_key _ _).2 hfree
  have hget : (p.heap.set a (started a p._next_instance_id inst d))[a]? =
      some (started a p._next_instance_id inst d) := heap_get_set_same _ _ _ _ hinst
  refine ⟨_, call_start_download_ok ops p a inst d hinst hid hfind, rfl, rfl, rfl, rfl, ?_, ?_,
    c_str_of_no_nul d._url⟩
  · rw [registry_of_some _ a _ hget]
    exact find_orderedInsert_self _ _ _ hfind
  · rw [queue_of_some _ a _ hget]
    rfl

/-- C7 (amended) at a concrete input: the sample download is started on the
process with one instance. -/
theorem C7_start_download_registers_witness :
    ∃ p', Process.call countingOps sampleProcess (Call.start_download 0 sampleDownload) =
        some (Ret.download Outcome.returned (sampleDownload.set_download_id 1), p') ∧
      (sampleDownload.set_download_id 1)._download_id = 1 ∧
      (sampleDownload.set_download_id 1)._url = sampleDownload._url ∧
      (sampleDownload.set_download_id 1)._state = sampleDownload._state ∧
      p'._next_instance_id = 1 + 1 ∧
      Downloads.find 1 (p'.registry 0) = some (sampleDownload.set_download_id 1) ∧
      p'.queue 0 = [] ++
        [{ _instance := 0
           _request_type := P3D_request_type.P3D_RT_get_url
           _url := c_str sampleDownload._url
           _unique_id := 1 }] ∧
      (Char.ofNat 0 ∉ sampleDownload._url.data → c_str sampleDownload._url = sampleDownload._url) :=
  C7_start_download_registers countingOps sampleProcess 0
    { _instance_id := 0, _tokens := [], _pending_requests := [], _downloads := [] }
    sampleDownload rfl rfl (by decide)

/-- C8: in a fresh process in which exactly one instance has been constructed,
the first `start_download`, of a download with url "http://x/a.bin", assigns
id 1 and queues a get_url request with unique_id 1 and that url; one
`get_request` returns that request and leaves the queue empty; a chunk fed
under id 1 that leaves the download finished removes the registry entry; and
any further chunk fed under id 1 is refused. -/
theorem C8_scenario {S : Type} (ops : DownloadOps S) (tokens : List P3D_token) (s : S)
    (rc : P3D_result_code) (hs : Int) (te : Nat) (td : List Nat)
    (hfin : ops.get_download_finished (ops.feed_url_stream s rc hs te td).2 = true) :
    ∃ p2 p3 p4,
      Process.call ops (construct Process.fresh tokens).2
          (Call.start_download 0 (scenarioDownload s)) =
        some (Ret.download Outcome.returned
          { _download_id := 1, _url := "http://x/a.bin", _state := s }, p2) ∧
      p2.queue 0 = [scenarioRequest] ∧
      Downloads.find 1 (p2.registry 0) =
        some { _download_id := 1, _url := "http://x/a.bin", _state := s } ∧
      Process.call ops p2 (Call.get_request 0) = some (Ret.request (some scenarioRequest), p3) ∧
      p3.queue 0 = [] ∧
      Process.call ops p3 (Call.feed_url_stream 0 1 rc hs te td) =
        some (Ret.bool (ops.feed_url_stream s rc hs te td).1, p4) ∧
      (1 : Int) ∉ Downloads.keys (p4.registry 0) ∧
      ∀ (rc' : P3D_result_code) (hs' : Int) (te' : Nat) (td' : List Nat),
        Process.call ops p4 (Call.feed_url_stream 0 1 rc' hs' te' td') =
          some (Ret.bool false, p4) := by
  have hurl : c_str "http://x/a.bin" = "http://x/a.bin" := by decide
  refine ⟨{ _next_instance_id := 2
            heap := [{ _instance_id := 0
                       _tokens := fill_tokens tokens []
                       _pending_requests := [scenarioRequest]
                       _downloads :=
                         [(1, { _download_id := 1, _url := "http://x/a.bin", _state := s })] }] },
    { _next_instance_id := 2
      heap := [{ _instance_id := 0
                 _tokens := fill_tokens tokens []
                 _pending_requests := []
                 _downloads :=
                   [(1, { _download_id := 1, _url := "http://x/a.bin", _state := s })] }] },
    { _next_instance_id := 2
      heap := [{ _instance_id := 0
                 _tokens := fill_tokens tokens []
                 _pending_requests := []
                 _downloads := [] }] }, ?_, rfl, ?_, ?_, rfl, ?_, ?_, ?_⟩
  · simp [Process.call, construct, Process.fresh, start_download, scenarioDownload,
      P3DDownload.get_download_id, P3DDownload.set_download_id, P3DDownload.get_url,
      Downloads.insert, Downloads.find, Downloads.orderedInsert, add_request, hurl,
      scenarioRequest]
  · simp [Process.registry, Downloads.find]
  · simp [Process.call, get_request]
  · simp [Process.call, feed_url_stream, Downloads.find, hfin, Downloads.erase]
  · simp [Process.registry, Downloads.keys]
  · intro rc' hs' te' td'
    simp [Process.call, feed_url_stream, Downloads.find]

/-- C8 at a concrete input: the sample ingestion receives 10 of 10 expected
bytes with result code 1. -/
theorem C8_scenario_witness :
    ∃ p2 p3 p4,
      Process.call countingOps (construct Process.fresh []).2
          (Call.start_download 0 (scenarioDownload (0, false))) =
        some (Ret.download Outcome.returned
          { _download_id := 1, _url := "http://x/a.bin", _state := (0, false) }, p2) ∧
      p2.queue 0 = [scenarioRequest] ∧
      Downloads.find 1 (p2.registry 0) =
        some { _download_id := 1, _url := "http://x/a.bin", _state := (0, false) } ∧
      Process.call countingOps p2 (Call.get_request 0) =
        some (Ret.request (some scenarioRequest), p3) ∧
      p3.queue 0 = [] ∧
      Process.call countingOps p3 (Call.feed_url_stream 0 1 1 200 10 [0, 1, 2, 3, 4, 5, 6, 7, 8, 9]) =
        some (Ret.bool (countingOps.feed_url_stream (0, false) 1 200 10
          [0, 1, 2, 3, 4, 5, 6, 7, 8, 9]).1, p4) ∧
      (1 : Int) ∉ Downloads.keys (p4.registry 0) ∧
      ∀ (rc' : P3D_result_code) (hs' : Int) (te' : Nat) (td' : List Nat),
        Process.call countingOps p4 (Call.feed_url_stream 0 1 rc' hs' te' td') =
          some (Ret.bool false, p4) :=
  C8_scenario countingOps [] (0, false) 1 200 10 [0, 1, 2, 3, 4, 5, 6, 7, 8, 9] rfl

/-- C9: in every instance state, `start_download` of a download that carries
a non-zero id fails its first assertion with the id counter, the registry, the
pending queue and the download unchanged. And in every state reached by a run
from the fresh process, `start_download` of a download without an id gives it
a non-zero id, so that a second `start_download` of that download object,
whatever its stream state has become and whatever state the process is in,
fails in this way. -/
theorem C9_double_registration_asserts {S : Type} (ops : DownloadOps S) :
    (∀ (p : Process S) (a : Nat) (inst : P3DInstance S) (d : P3DDownload S),
      p.heap[a]? = some inst → d._download_id ≠ 0 →
      start_download a p._next_instance_id inst d =
          (Outcome.assert_failed download_id_assertion, p._next_instance_id, inst, d) ∧
        Process.call ops p (Call.start_download a d) =
          some (Ret.download (Outcome.assert_failed download_id_assertion) d, p)) ∧
    (∀ (cs : List (Call S)) (rs : List (Ret S)) (p : Process S) (a : Nat)
      (inst : P3DInstance S) (d : P3DDownload S),
      Process.run ops Process.fresh cs = some (rs, p) → p.heap[a]? = some inst →
      d._download_id = 0 →
      ∃ p1 d1, Process.call ops p (Call.start_download a d) =
          some (Ret.download Outcome.returned d1, p1) ∧
        d1._download_id ≠ 0 ∧
        ∀ (s : S) (p2 : Process S) (b : Nat) (instb : P3DInstance S),
          p2.heap[b]? = some instb →
          Process.call ops p2 (Call.start_download b { d1 with _state := s }) =
            some (Ret.download (Outcome.assert_failed download_id_assertion)
              { d1 with _state := s }, p2)) := by
  constructor
  · intro p a inst d hinst hid
    exact ⟨start_download_reject a _ inst d hid, call_start_download_reject ops p a inst d hinst hid⟩
  · intro cs rs p a inst d hrun hinst hid
    obtain ⟨hinv, _, _⟩ := run_inv ops cs Process.fresh p rs fresh_inv hrun
    obtain ⟨hfree, hpos⟩ := inv_counter_free p a inst hinv hinst
    have hne : (d.set_download_id p._next_instance_id)._download_id ≠ 0 := by
      simp only [P3DDownload.set_download_id]
      omega
    refine ⟨_, _, call_start_download_ok ops p a inst d hinst hid hfree, hne, ?_⟩
    intro s p2 b instb hb
    exact call_start_download_reject ops p2 b instb _ hb hne

/-- C9 at a concrete input: the sample download registered under id 1 is
started a second time. -/
theorem C9_double_registration_asserts_witness :
    Process.call countingOps sampleProcess1
        (Call.start_download 0
          { _download_id := 1, _url := "http://x/a.bin", _state := (0, false) }) =
      some (Ret.download (Outcome.assert_failed download_id_assertion)
        { _download_id := 1, _url := "http://x/a.bin", _state := (0, false) }, sampleProcess1) :=
  ((C9_double_registration_asserts countingOps).1 sampleProcess1 0 sampleInstance1
    { _download_id := 1, _url := "http://x/a.bin", _state := (0, false) } rfl (by decide)).2

/-- C10: `add_request` returns exactly when the request's back-reference is
the instance; then the pending queue is the old queue with the request at the
tail and nothing else changes; when the back-reference differs, the assertion
fails and the instance, its queue included, is unchanged. The assertion never
fails inside `start_download`: the request built there carries this instance,
and `start_download` returns whenever its own two assertions hold. -/
theorem C10_add_request_back_reference {S : Type} (this : Nat) (inst : P3DInstance S)
    (request : P3D_request) :
    ((add_request this inst request).1 = Outcome.returned ↔ request._instance = this) ∧
    (request._instance = this →
      add_request this inst request =
        (Outcome.returned,
          { inst with _pending_requests := inst._pending_requests ++ [request] })) ∧
    (request._instance ≠ this →
      add_request this inst request = (Outcome.assert_failed add_request_assertion, inst)) ∧
    (∀ (next : Int) (d : P3DDownload S),
      (start_download this next inst d).1 ≠ Outcome.assert_failed add_request_assertion) ∧
    (∀ (next : Int) (d : P3DDownload S), d._download_id = 0 →
      next ∉ Downloads.keys inst._downloads →
      (start_download this next inst d).1 = Outcome.returned ∧
        (start_download this next inst d).2.2.1._pending_requests.getLast? =
          some (get_url_request this next d) ∧
        (get_url_request this next d)._instance = this) := by
  refine ⟨?_, add_request_ok this inst request, add_request_fail this inst request, ?_, ?_⟩
  · by_cases h : request._instance = this
    · simp [add_request_ok this inst request h, h]
    · simp [add_request_fail this inst request h, h]
  · intro next d
    by_cases hid : d._download_id = 0
    · cases hfind : Downloads.find next inst._downloads with
      | none =>
        rw [start_download_ok this next inst d hid hfind]
        simp
      | some d0 =>
        rw [start_download_collide this next inst d d0 hid hfind]
        simpa using assertions_differ.2.2
    · rw [start_download_reject this next inst d hid]
      simpa using assertions_differ.2.1
  · intro next d hid hfree
    have hfind := (find_none_iff_not_key _ _).2 hfree
    rw [start_download_ok this next inst d hid hfind]
    simp [get_url_request]

/-- C10 at a concrete input: a request of the instance at address 0 is added
to the sample instance at address 0. -/
theorem C10_add_request_back_reference_witness :
    add_request 0 sampleInstance1 (sampleRequest 2) =
      (Outcome.returned,
        { sampleInstance1 with
          _pending_requests := sampleInstance1._pending_requests ++ [sampleRequest 2] }) :=
  (C10_add_request_back_reference 0 sampleInstance1 (sampleRequest 2)).2.1 rfl

/-- C11: `lookup_token` returns the value of the first token, in list order,
whose keyword equals the given keyword, and the empty string when no token has
that keyword; and the token list that the constructor stores is its token
array, entry by entry in the same order and of the same length, a `NULL`
keyword or value stored as the empty string. -/
theorem C11_lookup_token_first_match {S : Type} (p : Process S) (tokens : List P3D_token)
    (keyword : String) :
    (∀ (pre post : List Token) (t : Token), (∀ x ∈ pre, x._keyword ≠ keyword) →
      t._keyword = keyword → lookup_token (pre ++ t :: post) keyword = t._value) ∧
    (∀ l : List Token, (∀ x ∈ l, x._keyword ≠ keyword) → lookup_token l keyword = "") ∧
    (∀ l : List Token, lookup_token l keyword =
      ((l.find? (fun t => decide (t._keyword = keyword))).map (fun t => t._value)).getD "") ∧
    fill_tokens tokens [] = tokens.map stored_token ∧
    (fill_tokens tokens []).length = tokens.length ∧
    ((construct p tokens).2.heap[(construct p tokens).1]?).map (fun inst => inst._tokens) =
      some (tokens.map stored_token) := by
  refine ⟨fun pre post t => lookup_token_first pre post t keyword,
    fun l => lookup_token_absent l keyword, fun l => lookup_token_find l keyword, ?_, ?_, ?_⟩
  · simpa using fill_tokens_eq tokens []
  · simp [fill_tokens_eq tokens []]
  · simp [construct, fill_tokens_eq tokens []]

/-- C11 at a concrete input: among the sample tokens the first "src" wins, a
keyword that is absent gives the empty string, and the `NULL` keyword and value
are stored as empty strings. -/
theorem C11_lookup_token_first_match_witness :
    lookup_token (fill_tokens sampleTokens []) "src" = "a.p3d" ∧
      lookup_token (fill_tokens sampleTokens []) "height" = "" ∧
      lookup_token (fill_tokens sampleTokens []) "" = "orphan" ∧
      fill_tokens sampleTokens [] =
        [{ _keyword := "src", _value := "a.p3d" }, { _keyword := "", _value := "orphan" },
          { _keyword := "src", _value := "b.p3d" }, { _keyword := "width", _value := "" }] :=
  ⟨((C11_lookup_token_first_match sampleProcess sampleTokens "src").1 []
      [{ _keyword := "", _value := "orphan" }, { _keyword := "src", _value := "b.p3d" },
        { _keyword := "width", _value := "" }]
      { _keyword := "src", _value := "a.p3d" } (by simp) rfl),
    by decide, by decide, by decide⟩

/-- C12: for every registered id, `feed_url_stream` returns the boolean that
the registered download's own ingestion of the chunk returned: true for a
chunk it accepts, a final chunk that completes the download included, and
false for a chunk it rejects. -/
theorem C12_feed_returns_ingestion_result {S : Type} (ops : DownloadOps S) (p : Process S)
    (a : Nat) (inst : P3DInstance S) (unique_id : Int) (d : P3DDownload S)
    (rc : P3D_result_code) (hs : Int) (te : Nat) (td : List Nat)
    (hinst : p.heap[a]? = some inst)
    (hreg : Downloads.find unique_id inst._downloads = some d) :
    (feed_url_stream ops inst unique_id rc hs te td).1 =
        (ops.feed_url_stream d._state rc hs te td).1 ∧
      ∃ p', Process.call ops p (Call.feed_url_stream a unique_id rc hs te td) =
        some (Ret.bool (ops.feed_url_stream d._state rc hs te td).1, p') := by
  have h1 : (feed_url_stream ops inst unique_id rc hs te td).1 =
      (ops.feed_url_stream d._state rc hs te td).1 := by
    unfold feed_url_stream
    simp only [hreg]
    split <;> rfl
  refine ⟨h1, ?_⟩
  rw [call_feed_eq ops p a inst unique_id rc hs te td hinst, h1]
  exact ⟨_, rfl⟩

/-- C12 at a concrete input: the final chunk that completes the sample
download returns true. -/
theorem C12_feed_returns_ingestion_result_witness :
    (feed_url_stream countingOps sampleInstance1 1 1 200 3 [7, 8, 9]).1 =
        (countingOps.feed_url_stream (0, false) 1 200 3 [7, 8, 9]).1 ∧
      ∃ p', Process.call countingOps sampleProcess1 (Call.feed_url_stream 0 1 1 200 3 [7, 8, 9]) =
        some (Ret.bool (countingOps.feed_url_stream (0, false) 1 200 3 [7, 8, 9]).1, p') :=
  C12_feed_returns_ingestion_result countingOps sampleProcess1 0 sampleInstance1 1
    { _download_id := 1, _url := "http://x/a.bin", _state := (0, false) } 1 200 3 [7, 8, 9]
    rfl rfl

/-- C15: a chunk fed under a registered id whose ingestion returns true and
leaves the download not finished keeps the download registered under the same
id: the call returns true, the key set of the registry is unchanged, the id
maps to the same download with its stream state advanced, and the next chunk
fed under that id is forwarded to that download again. -/
theorem C15_healthy_chunk_keeps_download {S : Type} (ops : DownloadOps S) (p : Process S)
    (a : Nat) (inst : P3DInstance S) (unique_id : Int) (d : P3DDownload S)
    (rc : P3D_result_code) (hs : Int) (te : Nat) (td : List Nat)
    (hinst : p.heap[a]? = some inst)
    (hreg : Downloads.find unique_id inst._downloads = some d)
    (hok : (ops.feed_url_stream d._state rc hs te td).1 = true)
    (hnot : ops.get_download_finished (ops.feed_url_stream d._state rc hs te td).2 = false) :
    ∃ p', Process.call ops p (Call.feed_url_stream a unique_id rc hs te td) =
        some (Ret.bool true, p') ∧
      Downloads.keys (p'.registry a) = Downloads.keys inst._downloads ∧
      Downloads.find unique_id (p'.registry a) =
        some { _download_id := d._download_id, _url := d._url
               _state := (ops.feed_url_stream d._state rc hs te td).2 } ∧
      ∀ (rc' : P3D_result_code) (hs' : Int) (te' : Nat) (td' : List Nat),
        ∃ p'', Process.call ops p' (Call.feed_url_stream a unique_id rc' hs' te' td') =
          some (Ret.bool (ops.feed_url_stream (ops.feed_url_stream d._state rc hs te td).2
            rc' hs' te' td').1, p'') := by
  have hkeep := feed_url_stream_keep ops inst unique_id d rc hs te td hreg hok hnot
  have hget : (p.heap.set a (feed_url_stream ops inst unique_id rc hs te td).2)[a]? =
      some (feed_url_stream ops inst unique_id rc hs te td).2 :=
    heap_get_set_same _ _ _ _ hinst
  have hfind : Downloads.find unique_id
      (feed_url_stream ops inst unique_id rc hs te td).2._downloads =
      some { _download_id := d._download_id, _url := d._url
             _state := (ops.feed_url_stream d._state rc hs te td).2 } := by
    rw [hkeep]
    exact find_writeBack_self _ _ _ _ hreg
  have hget' : (p.fed ops a inst unique_id rc hs te td).heap[a]? =
      some (feed_url_stream ops inst unique_id rc hs te td).2 := hget
  refine ⟨p.fed ops a inst unique_id rc hs te td, ?_, ?_, ?_, ?_⟩
  · rw [call_feed_eq ops p a inst unique_id rc hs te td hinst, hkeep]
  · rw [registry_of_some _ a _ hget', hkeep]
    exact keys_writeBack _ _ _
  · rw [registry_of_some _ a _ hget']
    exact hfind
  · intro rc' hs' te' td'
    exact call_feed_registered ops _ a _ unique_id _ rc' hs' te' td' hget' hfind

/-- C15 at a concrete input: the sample download under id 1 expects 10 bytes
and receives the first 3. -/
theorem C15_healthy_chunk_keeps_download_witness :
    ∃ p', Process.call countingOps sampleProcess1 (Call.feed_url_stream 0 1 0 200 10 [7, 8, 9]) =
        some (Ret.bool true, p') ∧
      Downloads.keys (p'.registry 0) = Downloads.keys sampleInstance1._downloads ∧
      Downloads.find 1 (p'.registry 0) =
        some { _download_id := 1, _url := "http://x/a.bin"
               _state := (countingOps.feed_url_stream (0, false) 0 200 10 [7, 8, 9]).2 } ∧
      ∀ (rc' : P3D_result_code) (hs' : Int) (te' : Nat) (td' : List Nat),
        ∃ p'', Process.call countingOps p' (Call.feed_url_stream 0 1 rc' hs' te' td') =
          some (Ret.bool (countingOps.feed_url_stream
            (countingOps.feed_url_stream (0, false) 0 200 10 [7, 8, 9]).2 rc' hs' te' td').1, p'') :=
  C15_healthy_chunk_keeps_download countingOps sampleProcess1 0 sampleInstance1 1
    { _download_id := 1, _url := "http://x/a.bin", _state := (0, false) } 0 200 10 [7, 8, 9]
    rfl rfl rfl rfl

/-- C16: for every instance state and every non-NULL request,
`finish_request` with `handled` true and with `handled` false give the same
outcome and the same state: the call returns and the instance, and with it the
pending queue, the registry and the id counter of the process, are unchanged. -/
theorem C16_finish_request_ignores_handled {S : Type} (ops : DownloadOps S) (p : Process S)
    (a : Nat) (inst : P3DInstance S) (request : P3D_request)
    (hinst : p.heap[a]? = some inst) :
    finish_request inst (some request) true = finish_request inst (some request) false ∧
      (∀ handled : Bool, finish_request inst (some request) handled = (Outcome.returned, inst)) ∧
      Process.call ops p (Call.finish_request a (some request) true) =
        Process.call ops p (Call.finish_request a (some request) false) ∧
      ∀ handled : Bool, Process.call ops p (Call.finish_request a (some request) handled) =
        some (Ret.void Outcome.returned, p) := by
  have hcall : ∀ handled : Bool,
      Process.call ops p (Call.finish_request a (some request) handled) =
        some (Ret.void Outcome.returned, p) := by
    intro handled
    simp [Process.call, hinst, finish_request, heap_set_same _ _ _ hinst]
  exact ⟨rfl, fun _ => rfl, by rw [hcall true, hcall false], hcall⟩

/-- C16 at a concrete input: the pending request of the sample instance is
finished, handled or not. -/
theorem C16_finish_request_ignores_handled_witness :
    Process.call countingOps sampleProcess1 (Call.finish_request 0 (some (sampleRequest 1)) true) =
      Process.call countingOps sampleProcess1
        (Call.finish_request 0 (some (sampleRequest 1)) false) :=
  (C16_finish_request_ignores_handled countingOps sampleProcess1 0 sampleInstance1
    (sampleRequest 1) rfl).2.2.1

/-- C17: `feed_url_stream` leaves the id counter and the pending queue of
every instance unchanged, leaves every registry entry under another id
unchanged, and leaves the registries of the other instances unchanged; and
`has_request`, `get_request`, `add_request` and `finish_request` leave the id
counter and every registry unchanged. -/
theorem C17_queue_registry_independent {S : Type} (ops : DownloadOps S) :
    (∀ (p : Process S) (a : Nat) (inst : P3DInstance S) (unique_id : Int)
      (rc : P3D_result_code) (hs : Int) (te : Nat) (td : List Nat),
      p.heap[a]? = some inst →
      ∃ r p', Process.call ops p (Call.feed_url_stream a unique_id rc hs te td) = some (r, p') ∧
        p'._next_instance_id = p._next_instance_id ∧
        (∀ b, p'.queue b = p.queue b) ∧
        Downloads.erase unique_id (p'.registry a) = Downloads.erase unique_id (p.registry a) ∧
        (∀ j, j ≠ unique_id →
          Downloads.find j (p'.registry a) = Downloads.find j (p.registry a)) ∧
        (∀ b, b ≠ a → p'.registry b = p.registry b)) ∧
    (∀ (p p' : Process S) (c : Call S) (r : Ret S), Call.isQueueOp c = true →
      Process.call ops p c = some (r, p') →
      p'._next_instance_id = p._next_instance_id ∧ ∀ b, p'.registry b = p.registry b) := by
  refine ⟨?_, fun p p' c r hc hcall => call_queue_op_frame ops p p' c r hc hcall⟩
  intro p a inst unique_id rc hs te td hinst
  have hframe := feed_url_stream_frame ops inst unique_id rc hs te td
  have hheap : (p.fed ops a inst unique_id rc hs te td).heap =
      p.heap.set a (feed_url_stream ops inst unique_id rc hs te td).2 := rfl
  refine ⟨_, p.fed ops a inst unique_id rc hs te td,
    call_feed_eq ops p a inst unique_id rc hs te td hinst, rfl, ?_, ?_, ?_, ?_⟩
  · intro b
    rw [queue_after_set p _ a b inst _ hinst hheap]
    split
    · rename_i e; subst e
      rw [hframe.1, queue_of_some p a inst hinst]
    · rfl
  · rw [registry_after_set p _ a a inst _ hinst hheap, if_pos rfl,
      registry_of_some p a inst hinst]
    exact feed_url_stream_others ops inst unique_id rc hs te td
  · intro j hj
    rw [registry_after_set p _ a a inst _ hinst hheap, if_pos rfl,
      registry_of_some p a inst hinst]
    exact hframe.2.2.2.1 j hj
  · intro b hb
    rw [registry_after_set p _ a b inst _ hinst hheap, if_neg (fun e => hb e.symm)]

/-- C17 at a concrete input: a request is taken from the sample process, whose
registry and counter stay as they were. -/
theorem C17_queue_registry_independent_witness :
    ({ _next_instance_id := 2, heap := [{ sampleInstance1 with _pending_requests := [] }] } :
        Process (Nat × Bool))._next_instance_id = sampleProcess1._next_instance_id ∧
      ∀ b, ({ _next_instance_id := 2, heap := [{ sampleInstance1 with _pending_requests := [] }] } :
        Process (Nat × Bool)).registry b = sampleProcess1.registry b :=
  (C17_queue_registry_independent countingOps).2 sampleProcess1 _ (Call.get_request 0)
    (Ret.request (some (sampleRequest 1))) rfl rfl

/-- C19: in every state reached by a run from the fresh process, the counter
is at least 1 as soon as an instance exists, so the id that `start_download`
assigns is at least 1 and not 0; every download stored in a registry carries
a non-zero id, and 0 is not a key of any registry. -/
theorem C19_download_id_positive {S : Type} (ops : DownloadOps S) (cs : List (Call S))
    (rs : List (Ret S)) (p : Process S)
    (hrun : Process.run ops Process.fresh cs = some (rs, p)) :
    (∀ (a : Nat) (inst : P3DInstance S) (d : P3DDownload S), p.heap[a]? = some inst →
      d._download_id = 0 →
      ∃ p' d', Process.call ops p (Call.start_download a d) =
          some (Ret.download Outcome.returned d', p') ∧
        d'._download_id = p._next_instance_id ∧ 1 ≤ d'._download_id ∧ d'._download_id ≠ 0) ∧
    (∀ inst ∈ p.heap, (0 : Int) ∉ Downloads.keys inst._downloads) ∧
    (∀ inst ∈ p.heap, ∀ e ∈ inst._downloads, e.2._download_id ≠ 0) := by
  obtain ⟨hinv, hent⟩ := reachable_entries_inv ops cs rs p hrun
  refine ⟨?_, ?_, ?_⟩
  · intro a inst d hinst hid
    obtain ⟨hfree, hpos⟩ := inv_counter_free p a inst hinv hinst
    refine ⟨_, _, call_start_download_ok ops p a inst d hinst hid hfree, rfl, hpos, ?_⟩
    simp only [P3DDownload.set_download_id]
    omega
  · intro inst hinst hk
    simp only [Downloads.keys, List.mem_map] at hk
    obtain ⟨e, he, h0⟩ := hk
    have := (hent inst hinst e he).2.1
    omega
  · intro inst hinst e he
    obtain ⟨h1, h2, _⟩ := hent inst hinst e he
    omega

/-- C19 at a concrete run: an instance is constructed and the sample download
is started; it is stored under id 1. -/
theorem C19_download_id_positive_witness :
    (∀ inst ∈ sampleProcess1.heap, (0 : Int) ∉ Downloads.keys inst._downloads) ∧
      (∀ inst ∈ sampleProcess1.heap, ∀ e ∈ inst._downloads, e.2._download_id ≠ 0) :=
  (C19_download_id_positive countingOps
    [Call.construct [], Call.start_download 0 sampleDownload]
    [Ret.pointer 0, Ret.download Outcome.returned
      { _download_id := 1, _url := "http://x/a.bin", _state := (0, false) }]
    sampleProcess1 rfl).2

/-- C20: in every state reached by a run from the fresh process, every
registry entry (k, d) has the stored download id of d equal to k, and k is
strictly below the current value of the id counter. -/
theorem C20_entry_id_is_key {S : Type} (ops : DownloadOps S) (cs : List (Call S))
    (rs : List (Ret S)) (p : Process S)
    (hrun : Process.run ops Process.fresh cs = some (rs, p)) :
    (∀ inst ∈ p.heap, ∀ e ∈ inst._downloads,
      e.2._download_id = e.1 ∧ e.1 < p._next_instance_id) ∧
    (∀ (a : Nat) (k : Int) (d : P3DDownload S), Downloads.find k (p.registry a) = some d →
      d._download_id = k ∧ k < p._next_instance_id) := by
  obtain ⟨_, hent⟩ := reachable_entries_inv ops cs rs p hrun
  refine ⟨fun inst hinst e he => ⟨(hent inst hinst e he).1, (hent inst hinst e he).2.2⟩, ?_⟩
  intro a k d hfind
  cases hp : p.heap[a]? with
  | none => simp [Process.registry, hp, Downloads.find] at hfind
  | some inst =>
    rw [registry_of_some p a inst hp] at hfind
    have := hent inst (List.getElem?_mem hp) (k, d) (find_some_mem k d _ hfind)
    exact ⟨this.1, this.2.2⟩

/-- C20 at a concrete run: an instance is constructed and the sample download
is started; the entry under key 1 carries id 1, below the counter 2. -/
theorem C20_entry_id_is_key_witness :
    ({ _download_id := 1, _url := "http://x/a.bin", _state := (0, false) } :
        P3DDownload (Nat × Bool))._download_id = 1 ∧
      (1 : Int) < sampleProcess1._next_instance_id :=
  (C20_entry_id_is_key countingOps
    [Call.construct [], Call.start_download 0 sampleDownload]
    [Ret.pointer 0, Ret.download Outcome.returned
      { _download_id := 1, _url := "http://x/a.bin", _state := (0, false) }]
    sampleProcess1 rfl).2 0 1
    { _download_id := 1, _url := "http://x/a.bin", _state := (0, false) } rfl

/-- C18: instance ids and download ids come from the one counter, which
starts at 0. Along every run from the fresh process the ids handed out, by
constructions and by returning `start_download` calls, are 0, 1, 2, ... in
call order and the counter is their number: each taker gets the current
counter value and advances the counter by one, and no other call changes the
counter. Hence the ids handed out are pairwise distinct: no download id equals
an instance id or another download id, also among the instances and registry
entries of the state reached. -/
theorem C18_shared_counter {S : Type} (ops : DownloadOps S) (cs : List (Call S))
    (p : Process S) (log : List (IdKind × Int))
    (hrun : Process.runWith ops trackIds Process.fresh [] cs = some (p, log)) :
    (Process.fresh : Process S)._next_instance_id = 0 ∧
    p._next_instance_id = (log.length : Int) ∧
    log.map Prod.snd = (List.range log.length).map Int.ofNat ∧
    (∀ (q q' : Process S) (a : Nat) (d d' : P3DDownload S),
      Process.call ops q (Call.start_download a d) =
        some (Ret.download Outcome.returned d', q') →
      d'._download_id = q._next_instance_id ∧
        q'._next_instance_id = q._next_instance_id + 1) ∧
    (∀ (q : Process S) (tokens : List P3D_token),
      ((construct q tokens).2.heap[(construct q tokens).1]?).map (fun i => i._instance_id) =
          some q._next_instance_id ∧
        (construct q tokens).2._next_instance_id = q._next_instance_id + 1) ∧
    (∀ (q q' : Process S) (c : Call S) (r : Ret S), Call.takesId c = false →
      Process.call ops q c = some (r, q') → q'._next_instance_id = q._next_instance_id) ∧
    (log.map Prod.snd).Nodup ∧
    (∀ i d, (IdKind.instance_id, i) ∈ log → (IdKind.download_id, d) ∈ log → d ≠ i) ∧
    ((log.filter (fun x => decide (x.1 = IdKind.download_id))).map Prod.snd).Nodup ∧
    (∀ inst ∈ p.heap, ∀ inst' ∈ p.heap, ∀ e ∈ inst'._downloads,
      e.2._download_id ≠ inst._instance_id) := by
  have hI : IdsInv p log :=
    runWith_preserves ops trackIds (fun _ => True) IdsInv
      (fun q q' g c r _ hq hcall hret => step_ids_inv ops q q' g c r hq hcall hret)
      cs (fun _ _ => trivial) Process.fresh p [] log fresh_ids_inv hrun
  obtain ⟨hseq, hnext, hinst, hent⟩ := hI
  have hnodup : (log.map Prod.snd).Nodup := by
    rw [hseq]
    exact range_ids_nodup _
  have hdistinct : ∀ i d, (IdKind.instance_id, i) ∈ log → (IdKind.download_id, d) ∈ log →
      d ≠ i := by
    intro i d hi hd hEq
    have := List.inj_on_of_nodup_map hnodup hi hd hEq.symm
    simp at this
  refine ⟨rfl, hnext, hseq, ?_, ?_, ?_, hnodup, hdistinct, ?_, ?_⟩
  · intro q q' a d d' hcall
    rcases step_effect ops q q' _ _ hcall rfl with
      ⟨_, hc, _, _⟩ | ⟨_, _, _, hq, _⟩ | ⟨_, _, _, _, _, _, _, hc, _⟩ |
      ⟨this, inst, d0, hc, _, _, _, hr, rfl⟩
    · exact absurd hc (by simp)
    · simp [Call.isQueueOp] at hq
    · exact absurd hc (by simp)
    · simp only [Ret.download.injEq, true_and] at hr
      subst hr
      exact ⟨rfl, rfl⟩
  · intro q tokens
    simp [construct]
  · exact fun q q' c r hc hcall => call_counter_frame ops q q' c r hc hcall
  · exact hnodup.sublist ((List.filter_sublist _).map Prod.snd)
  · intro inst hi inst' hi' e he
    exact hdistinct _ _ (hinst inst hi) (hent inst' hi' e he)

/-- C18 at a concrete run: two instances are constructed and each starts a
download; the ids handed out are 0, 1, 2, 3. -/
theorem C18_shared_counter_witness :
    sampleProcess2._next_instance_id = 4 ∧
      ([(IdKind.instance_id, 0), (IdKind.download_id, 1), (IdKind.instance_id, 2),
        (IdKind.download_id, 3)] : List (IdKind × Int)).map Prod.snd =
        (List.range 4).map Int.ofNat :=
  ⟨(C18_shared_counter countingOps sampleCalls2 sampleProcess2
      [(IdKind.instance_id, 0), (IdKind.download_id, 1), (IdKind.instance_id, 2),
        (IdKind.download_id, 3)] rfl).2.1,
    (C18_shared_counter countingOps sampleCalls2 sampleProcess2
      [(IdKind.instance_id, 0), (IdKind.download_id, 1), (IdKind.instance_id, 2),
        (IdKind.download_id, 3)] rfl).2.2.1⟩

/-- C14 (amended): along every run from the fresh process in which no
download reports finished at the moment it is passed to `start_download`, a
download is a value of the registry of an instance if and only if it has been
passed to a returning `start_download` of that instance, its ingestion has
never returned false, and it does not report finished. -/
theorem C14_registered_iff_pending {S : Type} (ops : DownloadOps S) (cs : List (Call S))
    (p : Process S) (log : List (Started S))
    (hpending : ∀ c ∈ cs, Call.startsPending ops c = true)
    (hrun : Process.runWith ops (trackStarted ops) Process.fresh [] cs = some (p, log)) :
    ∀ (a : Nat) (d : P3DDownload S),
      (∃ k, (k, d) ∈ p.registry a) ↔
        ({ owner := a, download := d, rejected := false } ∈ log ∧
          ops.get_download_finished d._state = false) := by
  have hI : StartedInv ops p log :=
    runWith_preserves ops (trackStarted ops) (fun c => Call.startsPending ops c = true)
      (StartedInv ops)
      (fun q q' g c r hc hq hcall hret => step_started_inv ops q q' g c r hc hq hcall hret)
      cs hpending Process.fresh p [] log (fresh_started_inv ops) hrun
  obtain ⟨h1, h2, _, _⟩ := hI
  intro a d
  constructor
  · rintro ⟨k, hk⟩
    cases hp : p.heap[a]? with
    | none => simp [Process.registry, hp] at hk
    | some inst =>
      rw [registry_of_some p a inst hp] at hk
      obtain ⟨hm, _, hf⟩ := h1 a inst hp (k, d) hk
      exact ⟨hm, hf⟩
  · rintro ⟨hm, hf⟩
    obtain ⟨inst, hi, he⟩ := h2 _ hm rfl hf
    exact ⟨d._download_id, by rw [registry_of_some p a inst hi]; exact he⟩

/-- C14 at a concrete run: the sample download is started and receives 3 of
10 expected bytes; it is in the registry, started, never rejected and not
finished. -/
theorem C14_registered_iff_pending_witness :
    (∃ k, (k, sampleDownload3) ∈ sampleProcess3.registry 0) ↔
      (({ owner := 0, download := sampleDownload3, rejected := false } : Started (Nat × Bool)) ∈
          [{ owner := 0, download := sampleDownload3, rejected := false }] ∧
        countingOps.get_download_finished sampleDownload3._state = false) :=
  C14_registered_iff_pending countingOps sampleCalls3 sampleProcess3
    [{ owner := 0, download := sampleDownload3, rejected := false }] (by decide) rfl 0
    sampleDownload3

/-- C14 (the claim as stated fails): an instance is constructed and a download
that already reports finished is started. It is a value of the registry of the
instance, although it is not the case that it is started, never rejected and
not reporting finished: it reports finished. -/
theorem C14_counterexample :
    ∃ p log, Process.runWith countingOps (trackStarted countingOps) Process.fresh []
        [Call.construct [], Call.start_download 0 finishedDownload] = some (p, log) ∧
      (∃ k, (k, finishedDownload.set_download_id 1) ∈ p.registry 0) ∧
      countingOps.get_download_finished (finishedDownload.set_download_id 1)._state = true ∧
      ¬ (({ owner := 0, download := finishedDownload.set_download_id 1, rejected := false } :
            Started (Nat × Bool)) ∈ log ∧
          countingOps.get_download_finished (finishedDownload.set_download_id 1)._state = false) :=
  ⟨{ _next_instance_id := 2
     heap := [{ _instance_id := 0, _tokens := [], _pending_requests := [sampleRequest 1]
                _downloads := [(1, finishedDownload.set_download_id 1)] }] },
    [{ owner := 0, download := finishedDownload.set_download_id 1, rejected := false }],
    rfl, ⟨1, List.mem_singleton.2 rfl⟩, rfl, fun h => absurd h.2 (by decide)⟩

end P3D
